import Mathlib

set_option maxHeartbeats 1000000

/-!
Shallow embedding of the NetUMP session endpoint (src/NetUMP.h, src/NetUMP.cpp,
src/NetUMP_SessionProtocol.cpp) and of the UMP transcoder (src/UMP_Transcoder.c),
together with a verification of the central specification properties.

Conventions of the embedding:

* machine integers are modelled as `Nat`; wherever the C code relies on the
  width of a machine type (the `uint16_t` wrap-around of the sequence counter,
  byte or nibble extraction from a `uint32_t`) the model applies the
  corresponding `% 2 ^ w` explicitly;
* network byte order conversion (`htonl`, `htons`) is a bijection on the byte
  representation of a word and is modelled as the identity on word values;
* the 1024-word FIFO array and the SYSEX rebuild buffer are modelled as total
  functions `Nat → Nat`; the five-entry FEC structures are modelled as `List`s;
* socket transmissions are modelled as a list of `NetOutput` values returned by
  the transition functions; the incoming-datagram switch of `RunSession`
  receives its input as an already-split list of commands (`NetCmd`) together
  with the UDP sender address, exactly mirroring the opcode dispatch loop;
* the callback invocations performed by `ProcessIncomingUMP` are modelled as
  the returned list of delivered UMP messages (each message the list of its
  reconstructed 32-bit words).
-/

namespace NetUMP

/-- Session status constants (src/NetUMP.cpp lines 51-55). -/
def SESSION_CLOSED : Nat := 0

/-- Session status: sending invitation to remote partner. -/
def SESSION_INVITE : Nat := 2

/-- Session status: wait to be invited by remote station. -/
def SESSION_WAIT_INVITE : Nat := 4

/-- Session status: session is opened. -/
def SESSION_OPENED : Nat := 8

/-- Timeout reload value in milliseconds (src/NetUMP.cpp line 61). -/
def TIMEOUT_RESET : Nat := 30000

/-- Size of the outbound FIFO in 32-bit words (src/NetUMP.h line 103). -/
def UMP_FIFO_SIZE : Nat := 1024

/-- Number of packets recorded in the FEC register (src/NetUMP.h line 112). -/
def NUM_FEC_ENTRIES : Nat := 5

/-- BYE command code: user terminated the session. -/
def BYE_USER_TERMINATED : Nat := 0x01

/-- BYE command code: timeout. -/
def BYE_TIMEOUT : Nat := 0x04

/-- BYE command code: too many sessions. -/
def BYE_TOO_MANY_SESSIONS : Nat := 0x40

/-- Error correction mode constant (src/NetUMP.h line 101). -/
def ERROR_CORRECTION_FEC : Nat := 1

/-- The 32-bit ASCII signature word 'M','I','D','I' (src/NetUMP.h line 39). -/
def UMP_SIGNATURE : Nat := 0x4D494449

/-- Endpoint name buffer size (src/NetUMP.h line 36). -/
def MAX_UMP_ENDPOINT_NAME_LEN : Nat := 99

/-- Product instance id buffer size (src/NetUMP.h line 37). -/
def MAX_UMP_PRODUCT_INSTANCE_ID_LEN : Nat := 43

/-- SYSEX rebuild buffer size (src/UMP_Transcoder.h line 36). -/
def MAX_SYSEX_SIZE : Nat := 256

/-- Size of UMP messages in words for each possible MT (src/NetUMP.cpp line 58). -/
def UMPSize : List Nat := [1, 1, 1, 2, 2, 4, 1, 1, 2, 2, 2, 3, 3, 4, 4, 4]

/-- Message type nibble of a 32-bit UMP word (`word >> 28` on a `uint32_t`). -/
def mtOf (w : Nat) : Nat := w / 2 ^ 28 % 16

/-- One slot of the FEC round-robin memory (TFEC_REGISTER, src/NetUMP.h
lines 115-119).  `Packet` keeps the words stored for this slot; the C code
stores them in a fixed `uint32_t[65]` array and reads back exactly `Size`
words, so the model keeps just the stored list. -/
structure FECSlot where
  Filled : Bool
  Size : Nat
  Packet : List Nat
  deriving DecidableEq

/-- Default slot used for out-of-range list reads (never reached: the FEC
memory always has exactly `NUM_FEC_ENTRIES` slots). -/
def defaultSlot : FECSlot := ⟨false, 0, []⟩

/-- State of a `CNetUMPHandler` instance: the private fields of the class
(src/NetUMP.h lines 258-299) that the modelled operations read or write.
The unused `UMP_FIFO_FROM_NET` and `TimeCounter` fields are omitted: no
member function of the source ever reads them after construction.  The
`UMP_FIFO_TO_NET` structure is flattened into `FIFO`/`ReadPtr`/`WritePtr`. -/
structure HandlerState where
  EndpointName : List Nat
  ProductInstanceID : List Nat
  RemoteIP : Nat
  RemoteUDPPort : Nat
  LocalUDPPort : Nat
  IsInitiatorNode : Bool
  SocketLocked : Bool
  UMPSequenceCounter : Nat
  LastReceivedUMPCounter : Nat
  PINGDelayCounter : Nat
  PINGIdCounter : Nat
  SessionState : Nat
  SessionPartnerIP : Nat
  SessionPartnerPort : Nat
  ConnectionLost : Bool
  PeerClosedSession : Bool
  InviteCount : Nat
  TimeOutRemote : Nat
  TimerRunning : Bool
  TimerEvent : Bool
  EventTime : Nat
  FIFO : Nat → Nat
  ReadPtr : Nat
  WritePtr : Nat
  FECMemory : List FECSlot
  NextFECSlot : Nat
  ErrorCorrectionMode : Nat
  ReceivedSequenceCounters : List Nat

/-- ResetFECMemory (src/NetUMP.cpp lines 793-804): zero the sequence counter
and the round-robin pointer, clear the `Filled` and `Size` fields of every
slot (the stale `Packet` words are kept, as in the C code, but are never read
while `Filled` is false) and fill the receive dedup window with 0xFFFF. -/
def resetFECMemory (st : HandlerState) : HandlerState :=
  { st with
    UMPSequenceCounter := 0
    NextFECSlot := 0
    FECMemory := st.FECMemory.map fun s => { s with Filled := false, Size := 0 }
    ReceivedSequenceCounters := List.replicate NUM_FEC_ENTRIES 0xFFFF }

/-- PrepareTimerEvent (src/NetUMP.cpp lines 493-499). -/
def prepareTimerEvent (st : HandlerState) (timeToWait : Nat) : HandlerState :=
  { st with TimerRunning := true, TimerEvent := false, EventTime := timeToWait }

/-- The state after the constructor (src/NetUMP.cpp lines 63-106): all fields
the constructor assigns, followed by the `ResetFECMemory` call and the
`SelectErrorCorrectionMode(ERROR_CORRECTION_FEC)` call.  The FIFO word array
is not initialised by the constructor; words are never read before being
written, and the model fixes the arbitrary initial contents to zero. -/
def initialState : HandlerState :=
  resetFECMemory
    { EndpointName := [78, 101, 116, 85, 77, 80]            -- "NetUMP"
      ProductInstanceID := [68, 101, 102, 97, 117, 108, 116, 73, 68]  -- "DefaultID"
      RemoteIP := 0
      RemoteUDPPort := 0
      LocalUDPPort := 0
      IsInitiatorNode := true
      SocketLocked := true
      UMPSequenceCounter := 0
      LastReceivedUMPCounter := 0
      PINGDelayCounter := 0
      PINGIdCounter := 0
      SessionState := SESSION_CLOSED
      SessionPartnerIP := 0
      SessionPartnerPort := 0
      ConnectionLost := false
      PeerClosedSession := false
      InviteCount := 0
      TimeOutRemote := TIMEOUT_RESET
      TimerRunning := false
      TimerEvent := false
      EventTime := 0
      FIFO := fun _ => 0
      ReadPtr := 0
      WritePtr := 0
      FECMemory := List.replicate NUM_FEC_ENTRIES defaultSlot
      NextFECSlot := 0
      ErrorCorrectionMode := ERROR_CORRECTION_FEC
      ReceivedSequenceCounters := List.replicate NUM_FEC_ENTRIES 0xFFFF }

/-- InitiateSession (src/NetUMP.cpp lines 140-179), success path of the
socket creation.  The socket itself is outside the model. -/
def initiateSession (st : HandlerState) (destIP destPort localPort : Nat)
    (isInitiator : Bool) : HandlerState :=
  let st := { st with
    RemoteIP := destIP
    RemoteUDPPort := destPort
    LocalUDPPort := localPort
    ConnectionLost := false
    InviteCount := 0
    TimeOutRemote := TIMEOUT_RESET
    UMPSequenceCounter := 0
    PINGDelayCounter := 0
    TimerRunning := false
    IsInitiatorNode := isInitiator }
  let st :=
    if isInitiator then
      { st with
        SessionState := SESSION_INVITE
        SessionPartnerIP := st.RemoteIP
        SessionPartnerPort := st.RemoteUDPPort }
    else { st with SessionState := SESSION_WAIT_INVITE }
  prepareTimerEvent { st with SocketLocked := false } 1

/-- RestartSessionInitiator (src/NetUMP.cpp lines 502-512). -/
def restartSessionInitiator (st : HandlerState) : HandlerState :=
  if st.IsInitiatorNode = false then st
  else
    prepareTimerEvent
      { st with
        UMPSequenceCounter := 0
        SessionState := SESSION_INVITE
        TimeOutRemote := TIMEOUT_RESET } 1000

/-- ReadAndResetConnectionLost (src/NetUMP.cpp lines 524-530). -/
def readAndResetConnectionLost (st : HandlerState) : Bool × HandlerState :=
  if st.ConnectionLost = false then (false, st)
  else (true, { st with ConnectionLost := false })

/-- RemotePeerClosedSession (src/NetUMP.cpp lines 533-541). -/
def remotePeerClosedSession (st : HandlerState) : Bool × HandlerState :=
  (st.PeerClosedSession, { st with PeerClosedSession := false })

/-- SelectErrorCorrectionMode (src/NetUMP.cpp lines 807-810). -/
def selectErrorCorrectionMode (st : HandlerState) (mode : Nat) : HandlerState :=
  { st with ErrorCorrectionMode := mode }

/-- SetEndpointName (src/NetUMP.cpp lines 124-129); strings are modelled as
their byte lists without the null terminator, so `strlen` is `List.length`. -/
def setEndpointName (st : HandlerState) (name : List Nat) : HandlerState :=
  if name.length = 0 then st
  else if name.length ≥ MAX_UMP_ENDPOINT_NAME_LEN - 1 then st
  else { st with EndpointName := name }

/-- SetProductInstanceID (src/NetUMP.cpp lines 132-137). -/
def setProductInstanceID (st : HandlerState) (piid : List Nat) : HandlerState :=
  if piid.length = 0 then st
  else if piid.length ≥ MAX_UMP_PRODUCT_INSTANCE_ID_LEN then st
  else { st with ProductInstanceID := piid }

/-- Advance a FIFO cursor by one word with wrap-around, as written in the C
loops: `Ptr++; if (Ptr >= UMP_FIFO_SIZE) Ptr = 0;`. -/
def fifoAdvance (p : Nat) : Nat :=
  if p + 1 ≥ UMP_FIFO_SIZE then 0 else p + 1

/-- The word-copy loop body of SendUMPMessage (src/NetUMP.cpp lines 557-566):
write each word at the provisional cursor, advance with wrap-around, and fail
as soon as the advanced cursor lands on the read cursor.  Returns
(success, FIFO array, final provisional cursor); on failure the words copied
so far stay in the array, exactly as in the C code. -/
def sendLoop (readPtr : Nat) : List Nat → (Nat → Nat) → Nat →
    Bool × (Nat → Nat) × Nat
  | [], fifo, tmpWrite => (true, fifo, tmpWrite)
  | w :: ws, fifo, tmpWrite =>
    let fifo := fun i => if i = tmpWrite then w else fifo i
    let tmpWrite := fifoAdvance tmpWrite
    if tmpWrite = readPtr then (false, fifo, tmpWrite)
    else sendLoop readPtr ws fifo tmpWrite

/-- SendUMPMessage (src/NetUMP.cpp lines 544-572).  The word count is taken
from the MT nibble of the first word; the write pointer is published only when
the whole message has been copied. -/
def sendUMPMessage (st : HandlerState) (umpData : List Nat) : Bool × HandlerState :=
  if st.SessionState ≠ SESSION_OPENED then (false, st)
  else
    let mt := mtOf (umpData.headD 0)
    let msgSize := UMPSize.getD mt 0
    let words := (List.range msgSize).map fun j => umpData.getD j 0
    let r := sendLoop st.ReadPtr words st.FIFO st.WritePtr
    if r.1 then (true, { st with FIFO := r.2.1, WritePtr := r.2.2 })
    else (false, { st with FIFO := r.2.1 })

/-- The inner word-copy of the packing loop of GenerateUMPCommand
(src/NetUMP.cpp lines 607-624): copy `n` consecutive FIFO words starting at
`tempPtr`, advancing with wrap-around.  Returns the final cursor and the
copied words. -/
def copyWords (fifo : Nat → Nat) : Nat → Nat → Nat × List Nat
  | tempPtr, 0 => (tempPtr, [])
  | tempPtr, n + 1 =>
    let w := fifo tempPtr
    let r := copyWords fifo (fifoAdvance tempPtr) n
    (r.1, w :: r.2)

/-- The packing loop of GenerateUMPCommand (src/NetUMP.cpp lines 599-627):
drain whole UMP messages from the FIFO while the running word count stays
below 65.  Each productive iteration adds at least one word, and the loop
exits as soon as `count + length < 65` fails, so the loop body runs at most
64 times; `generateUMPCommand` passes fuel 65, which therefore never runs
out.  Returns (final cursor, word count, payload words). -/
def packLoop (fifo : Nat → Nat) (endPtr : Nat) :
    Nat → Nat → Nat → List Nat → Nat × Nat × List Nat
  | 0, tempPtr, count, acc => (tempPtr, count, acc)
  | fuel + 1, tempPtr, count, acc =>
    if tempPtr = endPtr then (tempPtr, count, acc)
    else
      let newUMP := fifo tempPtr
      let newLength := UMPSize.getD (mtOf newUMP) 0
      if count + newLength < 65 then
        let r := copyWords fifo tempPtr newLength
        packLoop fifo endPtr fuel r.1 (count + newLength) (acc ++ r.2)
      else (tempPtr, count, acc)

/-- The packing phase of GenerateUMPCommand, run on the FIFO snapshot:
cursor after draining, payload word count, payload words. -/
def genPack (st : HandlerState) : Nat × Nat × List Nat :=
  packLoop st.FIFO st.WritePtr 65 st.ReadPtr 0 []

/-- The new UMP command packet built by GenerateUMPCommand: the header word
`0xFF000000 + (word_count << 16) + UMPSequenceCounter` (src/NetUMP.cpp line
630, the counter is a `uint16_t`) followed by the payload words. -/
def newUMPPacket (st : HandlerState) : List Nat :=
  (0xFF000000 + (genPack st).2.1 * 2 ^ 16 + st.UMPSequenceCounter % 2 ^ 16)
    :: (genPack st).2.2

/-- Words contributed by one FEC slot to the transmission buffer
(src/NetUMP.cpp lines 660-667): `Size` words of the stored packet if the slot
is filled, nothing otherwise. -/
def slotContents (s : FECSlot) : List Nat :=
  if s.Filled then s.Packet.take s.Size else []

/-- Advance the FEC round-robin index (src/NetUMP.cpp lines 651-652, 668-669). -/
def fecAdvance (i : Nat) : Nat :=
  if i + 1 ≥ NUM_FEC_ENTRIES then 0 else i + 1

/-- The FEC polling loop of GenerateUMPCommand (src/NetUMP.cpp lines 656-670):
walk `fuel` slots starting at `fecIndex`, concatenating the contents of the
filled slots. -/
def fecReadout (mem : List FECSlot) : Nat → Nat → List Nat
  | _, 0 => []
  | fecIndex, n + 1 =>
    slotContents (mem.getD fecIndex defaultSlot) ++
      fecReadout mem (fecAdvance fecIndex) n

/-- GenerateUMPCommand (src/NetUMP.cpp lines 575-682).  Returns the word
count (the C return value), the new handler state, and the words of the
datagram written into the caller's buffer.  If the FIFO is empty at the
write-cursor snapshot the function returns 0 and changes nothing.  Otherwise
it builds the new packet, publishes the read cursor, increments the 16-bit
sequence counter and, in FEC mode, stores the packet in the round-robin slot
(`Size` is `NewCommandWordCount`, the header plus payload word count) and
emits the signature followed by all filled slots. -/
def generateUMPCommand (st : HandlerState) : Nat × HandlerState × List Nat :=
  if st.WritePtr = st.ReadPtr then (0, st, [])
  else
    let pr := genPack st
    let pkt := newUMPPacket st
    let st1 := { st with
      ReadPtr := pr.1
      UMPSequenceCounter := (st.UMPSequenceCounter + 1) % 2 ^ 16 }
    if st.ErrorCorrectionMode = ERROR_CORRECTION_FEC then
      let mem := st.FECMemory.set st.NextFECSlot ⟨true, pr.2.1 + 1, pkt⟩
      let nxt := fecAdvance st.NextFECSlot
      let tail := fecReadout mem nxt NUM_FEC_ENTRIES
      (1 + tail.length, { st1 with FECMemory := mem, NextFECSlot := nxt },
        UMP_SIGNATURE :: tail)
    else
      (pkt.length + 1, st1, UMP_SIGNATURE :: pkt)

/-- Reconstruct one big-endian 32-bit word from four buffer bytes starting at
`bc` (src/NetUMP.cpp lines 730-735 and the analogous blocks). -/
def readWord (buf : List Nat) (bc : Nat) : Nat :=
  buf.getD bc 0 * 2 ^ 24 + buf.getD (bc + 1) 0 * 2 ^ 16 +
    buf.getD (bc + 2) 0 * 2 ^ 8 + buf.getD (bc + 3) 0

/-- The payload parsing loop of ProcessIncomingUMP (src/NetUMP.cpp lines
726-789): while fewer than `payloadLength` words have been consumed,
reconstruct the first word of the next message, take its size from the MT
nibble, reconstruct the remaining words and invoke the callback once with the
complete message.  Each iteration consumes at least one word, so fuel equal
to `payloadLength` never runs out. -/
def parseLoop (buf : List Nat) (payloadLength : Nat) :
    Nat → Nat → Nat → List (List Nat)
  | 0, _, _ => []
  | fuel + 1, wordCounter, byteCounter =>
    if wordCounter < payloadLength then
      let w0 := readWord buf byteCounter
      let msize := UMPSize.getD (mtOf w0) 0
      if msize = 1 then
        [w0] :: parseLoop buf payloadLength fuel (wordCounter + 1) (byteCounter + 4)
      else
        let w1 := readWord buf (byteCounter + 4)
        if msize = 2 then
          [w0, w1] :: parseLoop buf payloadLength fuel (wordCounter + 2) (byteCounter + 8)
        else
          let w2 := readWord buf (byteCounter + 8)
          if msize = 3 then
            [w0, w1, w2] ::
              parseLoop buf payloadLength fuel (wordCounter + 3) (byteCounter + 12)
          else
            [w0, w1, w2, readWord buf (byteCounter + 12)] ::
              parseLoop buf payloadLength fuel (wordCounter + 4) (byteCounter + 16)
    else []

/-- The 16-bit packet number carried at bytes 2 and 3 of a UMP-data command
packet (src/NetUMP.cpp line 701). -/
def packetNumberOfBuf (buf : List Nat) : Nat :=
  buf.getD 2 0 * 2 ^ 8 + buf.getD 3 0

/-- ProcessIncomingUMP (src/NetUMP.cpp lines 685-790).  `buf` is the byte
buffer starting at the 0xFF command header.  If the packet number matches one
of the five receive dedup window entries the packet is dropped with no state
change and no callback; otherwise the window is shifted left by one, the new
number is appended at the tail, and the payload messages are delivered.  The
returned list is the sequence of callback invocations. -/
def processIncomingUMP (st : HandlerState) (buf : List Nat) :
    HandlerState × List (List Nat) :=
  let payloadLength := buf.getD 1 0
  let pn := packetNumberOfBuf buf
  if (List.range NUM_FEC_ENTRIES).any
      (fun i => pn = st.ReceivedSequenceCounters.getD i 0) then
    (st, [])
  else
    let window := (List.range NUM_FEC_ENTRIES).map fun i =>
      if i < NUM_FEC_ENTRIES - 1 then st.ReceivedSequenceCounters.getD (i + 1) 0
      else pn
    ({ st with LastReceivedUMPCounter := pn, ReceivedSequenceCounters := window },
      parseLoop buf payloadLength payloadLength 0 4)

/-- Feed the same buffer to ProcessIncomingUMP `n` times in a row,
accumulating the callback deliveries. -/
def processTimes (st : HandlerState) (buf : List Nat) :
    Nat → HandlerState × List (List Nat)
  | 0 => (st, [])
  | n + 1 =>
    let r := processTimes st buf n
    let r2 := processIncomingUMP r.1 buf
    (r2.1, r.2 ++ r2.2)

/-- One NetUMP command packet of an incoming datagram, as dispatched by the
opcode switch of RunSession (src/NetUMP.cpp lines 294-355).  `umpData`
carries the raw bytes of the command starting at the 0xFF header byte. -/
inductive NetCmd where
  | umpData (bytes : List Nat)
  | invitation
  | invitationAccepted
  | bye
  | ping (id : Nat)
  | pingReply
  | other
  deriving DecidableEq

/-- One packet sent by the handler (the `sendto` calls of NetUMP.cpp and
NetUMP_SessionProtocol.cpp); UMP datagrams carry their word list. -/
inductive NetOutput where
  | bye (code ip port : Nat)
  | byeReply (ip port : Nat)
  | invitation
  | invitationAccepted
  | ping (id : Nat)
  | pingReply (id : Nat)
  | umpData (words : List Nat)
  deriving DecidableEq

/-- The reception flags accumulated by the parse loop of RunSession
(src/NetUMP.cpp lines 262-266, 318-333). -/
structure RecvFlags where
  invitationReceived : Bool
  byeReceived : Bool
  invitationAccepted : Bool
  pingReceived : Bool
  pingID : Nat
  deriving DecidableEq

/-- All reception flags cleared (src/NetUMP.cpp lines 262-266). -/
def noFlags : RecvFlags := ⟨false, false, false, false, 0⟩

/-- Flag accumulation of the RunSession parse loop.  The flags depend only on
the received command list, never on the handler state, so the single C loop
is split into this pure fold and `recvProcess` below. -/
def recvFlags : List NetCmd → RecvFlags → RecvFlags
  | [], f => f
  | NetCmd.invitation :: rest, f => recvFlags rest { f with invitationReceived := true }
  | NetCmd.bye :: rest, f => recvFlags rest { f with byeReceived := true }
  | NetCmd.invitationAccepted :: rest, f =>
      recvFlags rest { f with invitationAccepted := true }
  | NetCmd.ping i :: rest, f =>
      recvFlags rest { f with pingReceived := true, pingID := i }
  | _ :: rest, f => recvFlags rest f

/-- The state effects of the RunSession parse loop (src/NetUMP.cpp lines
286-359): UMP-data packets from the session partner are processed while the
session is opened (resetting the timeout), and a PING reply resets the
timeout while opened.  Returns the state and the callback deliveries. -/
def recvProcess (sip sport : Nat) :
    HandlerState → List NetCmd → HandlerState × List (List Nat)
  | st, [] => (st, [])
  | st, NetCmd.umpData buf :: rest =>
    if sip = st.SessionPartnerIP then
      if sport = st.SessionPartnerPort then
        if st.SessionState = SESSION_OPENED then
          let r := processIncomingUMP { st with TimeOutRemote := TIMEOUT_RESET } buf
          let r2 := recvProcess sip sport r.1 rest
          (r2.1, r.2 ++ r2.2)
        else recvProcess sip sport st rest
      else recvProcess sip sport st rest
    else recvProcess sip sport st rest
  | st, NetCmd.pingReply :: rest =>
    recvProcess sip sport
      (if st.SessionState = SESSION_OPENED then { st with TimeOutRemote := TIMEOUT_RESET }
       else st) rest
  | st, _ :: rest => recvProcess sip sport st rest

/-- The timer bookkeeping at the top of RunSession (src/NetUMP.cpp lines
224-234). -/
def timerPhase (st : HandlerState) : HandlerState :=
  if st.TimerRunning then
    let et := if st.EventTime > 0 then st.EventTime - 1 else st.EventTime
    if et = 0 then { st with EventTime := et, TimerRunning := false, TimerEvent := true }
    else { st with EventTime := et }
  else st

/-- The timeout countdown of RunSession while the session is opened
(src/NetUMP.cpp lines 236-260). -/
def timeoutPhase (st : HandlerState) : HandlerState × List NetOutput :=
  if st.SessionState = SESSION_OPENED then
    let t := if st.TimeOutRemote > 0 then st.TimeOutRemote - 1 else st.TimeOutRemote
    let st := { st with TimeOutRemote := t }
    if t = 0 then
      let st := { st with ConnectionLost := true }
      let out := [NetOutput.bye BYE_TIMEOUT st.SessionPartnerIP st.SessionPartnerPort]
      if st.IsInitiatorNode then
        (restartSessionInitiator { st with SessionState := SESSION_CLOSED }, out)
      else ({ st with SessionState := SESSION_WAIT_INVITE }, out)
    else (st, [])
  else (st, [])

/-- The InvitationReceived flag handler of RunSession (src/NetUMP.cpp lines
366-385). -/
def invitationFlagPhase (st : HandlerState) (fl : RecvFlags) (sip sport : Nat) :
    HandlerState × List NetOutput :=
  if fl.invitationReceived then
    if st.IsInitiatorNode = false then
      if st.SessionState = SESSION_WAIT_INVITE then
        (resetFECMemory
          { st with
            TimeOutRemote := TIMEOUT_RESET
            SessionState := SESSION_OPENED
            SessionPartnerIP := sip
            SessionPartnerPort := sport },
          [NetOutput.invitationAccepted])
      else (st, [])
    else (st, [NetOutput.bye BYE_TOO_MANY_SESSIONS sip sport])
  else (st, [])

/-- The PingReceived flag handler of RunSession (src/NetUMP.cpp lines
387-390). -/
def pingFlagPhase (st : HandlerState) (fl : RecvFlags) :
    HandlerState × List NetOutput :=
  if fl.pingReceived then (st, [NetOutput.pingReply fl.pingID]) else (st, [])

/-- The BYEReceived flag handler of RunSession (src/NetUMP.cpp lines
392-415). -/
def byeFlagPhase (st : HandlerState) (fl : RecvFlags) (sip sport : Nat) :
    HandlerState × List NetOutput :=
  if fl.byeReceived then
    if sip = st.SessionPartnerIP ∧ sport = st.SessionPartnerPort then
      let out := [NetOutput.byeReply st.SessionPartnerIP st.SessionPartnerPort]
      let st :=
        if st.IsInitiatorNode = false then
          { st with
            SessionState := SESSION_WAIT_INVITE
            SessionPartnerIP := 0
            SessionPartnerPort := 0 }
        else restartSessionInitiator { st with SessionState := SESSION_CLOSED }
      ({ st with ConnectionLost := true }, out)
    else (st, [NetOutput.byeReply sip sport])
  else (st, [])

/-- The state machine manager at the bottom of RunSession (src/NetUMP.cpp
lines 417-489): unless the session is closed, GenerateUMPCommand always runs
(to flush the FIFO); while opened the datagram is sent and the PING keepalive
counter advances; while inviting, an accepted invitation opens the session
(adopting only the sender IP) and otherwise a timer event triggers a new
invitation. -/
def statePhase (st : HandlerState) (fl : RecvFlags) (sip : Nat) :
    HandlerState × List NetOutput :=
  if st.SessionState = SESSION_CLOSED then (st, [])
  else
    let g := generateUMPCommand st
    let st := g.2.1
    if st.SessionState = SESSION_OPENED then
      let out := if g.1 > 0 then [NetOutput.umpData g.2.2] else []
      let pd := st.PINGDelayCounter + 1
      if pd > 10000 then
        ({ st with PINGDelayCounter := 0, PINGIdCounter := st.PINGIdCounter + 1 },
          out ++ [NetOutput.ping (st.PINGIdCounter + 1)])
      else ({ st with PINGDelayCounter := pd }, out)
    else if st.SessionState = SESSION_INVITE then
      if fl.invitationAccepted then
        (resetFECMemory
          { st with SessionPartnerIP := sip, SessionState := SESSION_OPENED }, [])
      else if st.TimerRunning = false ∧ st.TimerEvent then
        (prepareTimerEvent { st with InviteCount := st.InviteCount + 1 } 1000,
          [NetOutput.invitation])
      else (st, [])
    else (st, [])

/-- RunSession (src/NetUMP.cpp lines 193-490): one millisecond tick.  `recv`
is the datagram drained from the socket this tick, if any, already split into
its command packets together with the UDP sender address (the parse loop
checked the MIDI signature before dispatching).  Returns the new state, the
packets sent on the network, and the callback deliveries. -/
def runSession (st0 : HandlerState) (recv : Option (Nat × Nat × List NetCmd)) :
    HandlerState × List NetOutput × List (List Nat) :=
  if st0.SocketLocked then (st0, [], [])
  else
    let sip := (recv.getD (0, 0, [])).1
    let sport := (recv.getD (0, 0, [])).2.1
    let cmds := (recv.getD (0, 0, [])).2.2
    let st1 := timerPhase st0
    let p2 := timeoutPhase st1
    let pr := recvProcess sip sport p2.1 cmds
    let fl := recvFlags cmds noFlags
    let p4 := invitationFlagPhase pr.1 fl sip sport
    let p5 := pingFlagPhase p4.1 fl
    let p6 := byeFlagPhase p5.1 fl sip sport
    let p7 := statePhase p6.1 fl sip
    (p7.1, p2.2 ++ p4.2 ++ p5.2 ++ p6.2 ++ p7.2, pr.2)

/-- CloseSession (src/NetUMP.cpp lines 182-190): only an opened session is
torn down; in every other state the call does nothing.  The socket is not
closed here (CloseSockets is a separate method, called by the destructor). -/
def closeSession (st : HandlerState) : HandlerState × List NetOutput :=
  if st.SessionState = SESSION_OPENED then
    ({ st with SessionState := SESSION_CLOSED },
      [NetOutput.bye BYE_USER_TERMINATED st.SessionPartnerIP st.SessionPartnerPort])
  else (st, [])

/-- Ticks and pushes driving the outbound pipeline of one handler: a run is a
list of `push` (SendUMPMessage) and `tick` (GenerateUMPCommand) operations. -/
inductive UMPOp where
  | push (msg : List Nat)
  | tick

/-- Execute a run of pushes and ticks, collecting the 16-bit packet-number
field of every UMP-data packet emitted by a non-zero GenerateUMPCommand call
(the packet number is the low 16 bits of the new packet's header word). -/
def runOps : HandlerState → List UMPOp → HandlerState × List Nat
  | st, [] => (st, [])
  | st, UMPOp.push msg :: ops => runOps (sendUMPMessage st msg).2 ops
  | st, UMPOp.tick :: ops =>
    let r := generateUMPCommand st
    let rest := runOps r.2.1 ops
    if r.1 = 0 then rest
    else (rest.1, (newUMPPacket st).headD 0 % 2 ^ 16 :: rest.2)

section Transcoder

/-- TSYSEX7_Decoder_Control (src/UMP_Transcoder.h lines 40-44); the fixed
`uint8_t[256]` buffer is modelled as a total function so that out-of-range
stores of the C code are observable as written indices `≥ MAX_SYSEX_SIZE`. -/
structure TSYSEX7_Decoder_Control where
  UMPStarted : Nat
  SYSEXSize : Nat
  SYSEXBuffer : Nat → Nat

/-- A fresh decoder: no SYSEX started, empty buffer. -/
def initDecoder : TSYSEX7_Decoder_Control := ⟨0, 0, fun _ => 0⟩

/-- Store one byte of the SYSEX rebuild buffer. -/
def writeBuf (f : Nat → Nat) (i v : Nat) : Nat → Nat :=
  fun j => if j = i then v else f j

/-- RebuildSYSEXFromUMP (src/UMP_Transcoder.c lines 249-337).  `ump` is the
UMP packet (two 32-bit words are read).  Returns the C return value, the new
decoder state, and the list of buffer indices written by this call, in store
order, so that buffer-bounds properties can be stated about the code. -/
def rebuildSYSEXFromUMP (ump : List Nat) (d : TSYSEX7_Decoder_Control) :
    Nat × TSYSEX7_Decoder_Control × List Nat :=
  let w0 := ump.getD 0 0
  let w1 := ump.getD 1 0
  if mtOf w0 ≠ 3 then (0, d, [])
  else
    let status := w0 / 2 ^ 20 % 16
    let size := w0 / 2 ^ 16 % 16
    if status = 1 then
      -- SYSEX Start: reinitialise the decoder and store F0 plus six data bytes
      let b := writeBuf d.SYSEXBuffer 0 0xF0
      let b := writeBuf b 1 (w0 / 2 ^ 8 % 128)
      let b := writeBuf b 2 (w0 % 128)
      let b := writeBuf b 3 (w1 / 2 ^ 24 % 128)
      let b := writeBuf b 4 (w1 / 2 ^ 16 % 128)
      let b := writeBuf b 5 (w1 / 2 ^ 8 % 128)
      let b := writeBuf b 6 (w1 % 128)
      (0, ⟨1, size + 1, b⟩, [0, 1, 2, 3, 4, 5, 6])
    else if status = 2 then
      -- SYSEX Continue
      if d.UMPStarted = 0 then (0, d, [])
      else if d.SYSEXSize ≥ MAX_SYSEX_SIZE - 6 then
        (0, { d with UMPStarted := 0 }, [])
      else
        let s := d.SYSEXSize
        let b := writeBuf d.SYSEXBuffer s (w0 / 2 ^ 8 % 128)
        let b := writeBuf b (s + 1) (w0 % 128)
        let b := writeBuf b (s + 2) (w1 / 2 ^ 24 % 128)
        let b := writeBuf b (s + 3) (w1 / 2 ^ 16 % 128)
        let b := writeBuf b (s + 4) (w1 / 2 ^ 8 % 128)
        let b := writeBuf b (s + 5) (w1 % 128)
        (0, ⟨d.UMPStarted, s + size, b⟩, [s, s + 1, s + 2, s + 3, s + 4, s + 5])
    else if status = 3 then
      -- SYSEX End: no bounds check before the final stores
      if d.UMPStarted = 0 then (0, d, [])
      else
        let s := d.SYSEXSize
        let b := d.SYSEXBuffer
        let b := if 1 ≤ size then writeBuf b s (w0 / 2 ^ 8 % 128) else b
        let b := if 2 ≤ size then writeBuf b (s + 1) (w0 % 128) else b
        let b := if 3 ≤ size then writeBuf b (s + 2) (w1 / 2 ^ 24 % 128) else b
        let b := if 4 ≤ size then writeBuf b (s + 3) (w1 / 2 ^ 16 % 128) else b
        let b := if 5 ≤ size then writeBuf b (s + 4) (w1 / 2 ^ 8 % 128) else b
        let b := if size = 6 then writeBuf b (s + 5) (w1 % 128) else b
        let b := writeBuf b (s + size) 0xF7
        (s + size + 1, ⟨0, s + size, b⟩,
          (if 1 ≤ size then [s] else []) ++
          (if 2 ≤ size then [s + 1] else []) ++
          (if 3 ≤ size then [s + 2] else []) ++
          (if 4 ≤ size then [s + 3] else []) ++
          (if 5 ≤ size then [s + 4] else []) ++
          (if size = 6 then [s + 5] else []) ++ [s + size])
    else (0, d, [])

/-- Feed a sequence of UMP packets to the SYSEX decoder, accumulating every
buffer index written along the way. -/
def rebuildRun : TSYSEX7_Decoder_Control → List (List Nat) →
    TSYSEX7_Decoder_Control × List Nat
  | d, [] => (d, [])
  | d, p :: ps =>
    let r := rebuildSYSEXFromUMP p d
    let rest := rebuildRun r.2.1 ps
    (rest.1, r.2.2 ++ rest.2)

end Transcoder

section SpecHelpers

/-- The last `n` elements of a list, in their original order. -/
def lastN (n : Nat) (l : List α) : List α := (l.reverse.take n).reverse

/-- Optional indexing into a list of packets (0 is the head). -/
def nthOpt : List (List Nat) → Nat → Option (List Nat)
  | [], _ => none
  | x :: _, 0 => some x
  | _ :: xs, n + 1 => nthOpt xs n

/-- The packet held by a FEC slot, if the slot is filled. -/
def slotOpt (s : FECSlot) : Option (List Nat) :=
  if s.Filled then some (s.Packet.take s.Size) else none

/-- The FEC memory represents the history `hist` of packets inserted since
the last reset: the slot `i` steps behind the round-robin cursor (walking
backwards, modulo 5) holds the `i`-th most recent packet of the history, and
is unfilled when the history is shorter.  This is the reachability invariant
of the FEC ring: `resetFECMemory` establishes it for the empty history and
every insertion performed by `generateUMPCommand` extends the history by the
packet just built. -/
def FECInv (st : HandlerState) (hist : List (List Nat)) : Prop :=
  st.FECMemory.length = NUM_FEC_ENTRIES ∧
  st.NextFECSlot < NUM_FEC_ENTRIES ∧
  ∀ i < NUM_FEC_ENTRIES,
    slotOpt (st.FECMemory.getD ((st.NextFECSlot + 4 - i) % 5) defaultSlot) =
      nthOpt hist.reverse i

instance (st : HandlerState) (hist : List (List Nat)) : Decidable (FECInv st hist) := by
  unfold FECInv; infer_instance

/-- The four big-endian bytes of a 32-bit word. -/
def wordBytes (w : Nat) : List Nat :=
  [w / 2 ^ 24 % 256, w / 2 ^ 16 % 256, w / 2 ^ 8 % 256, w % 256]

/-- Serialise a word list into its big-endian byte stream. -/
def encodeWords (ws : List Nat) : List Nat := (ws.map wordBytes).flatten

/-- A wire-complete UMP-data command packet carrying the messages `msgs`
with 16-bit packet number `seq`: the 0xFF opcode, the payload word count,
the big-endian packet number, then the big-endian message words. -/
def umpDataPacket (seq : Nat) (msgs : List (List Nat)) : List Nat :=
  0xFF :: msgs.flatten.length :: (seq / 2 ^ 8 % 256) :: (seq % 256) ::
    encodeWords msgs.flatten

/-- A well-formed UMP message: its word count is exactly the MT-derived size
of its first word and all words are 32-bit values. -/
def WellFormedMsg (m : List Nat) : Prop :=
  m.length = UMPSize.getD (mtOf (m.headD 0)) 0 ∧ ∀ w ∈ m, w < 2 ^ 32

instance (m : List Nat) : Decidable (WellFormedMsg m) := by
  unfold WellFormedMsg
  infer_instance

end SpecHelpers

section ConcreteRuns

/-- A four-word UMP message with MT 5 (a MIDI 2.0 data message). -/
def mt5msg : List Nat := [0x50000000, 0, 0, 0]

/-- Push `n` copies of `mt5msg` through SendUMPMessage. -/
def pushMany (st : HandlerState) : Nat → HandlerState
  | 0 => st
  | n + 1 => pushMany (sendUMPMessage st mt5msg).2 n

/-- One production round: fill the FIFO with 64 words (16 four-word
messages), then one RunSession tick, which drains them into a single
65-word command packet. -/
def fullRound (st : HandlerState) : HandlerState :=
  (runSession (pushMany st 16) none).1

/-- A listener endpoint immediately after InitiateSession. -/
def listenerState : HandlerState := initiateSession initialState 0 0 8000 false

/-- The listener endpoint after accepting an invitation from 9:9999, so the
session is opened with FEC enabled (the constructor default). -/
def openedState : HandlerState :=
  (runSession listenerState (some (9, 9999, [NetCmd.invitation]))).1

/-- The opened endpoint after four full 64-word production rounds followed by
a fifth 64-word FIFO fill: the next GenerateUMPCommand call finds four filled
65-word FEC slots and builds a fifth 65-word packet. -/
def fecFullState : HandlerState :=
  pushMany (fullRound (fullRound (fullRound (fullRound openedState)))) 16

/-- An initiator endpoint immediately after
`InitiateSession(5, 9000, 6000, true)`: state Invite, partner port 9000,
one-millisecond invitation timer armed. -/
def inviteState : HandlerState := initiateSession initialState 5 9000 6000 true

/-- The initiator after its first tick: the invitation went out and the
1000 ms retry timer is armed. -/
def inviteTicked : HandlerState := (runSession inviteState none).1

/-- A 42-character product instance id (42 letters 'A'): together with the
null terminator it occupies 43 bytes. -/
def piid42 : List Nat := List.replicate 42 65

/-- A SYSEX stream that overflows the decoder buffer through the unchecked
End path: a Start packet with size nibble 15, sixteen Continue packets with
size nibble 15 (each passes the `SYSEXSize >= 250` guard while pushing the
size up by 15), then an End packet with size nibble 1. -/
def sysexOverflowPackets : List (List Nat) :=
  [[0x301F0000, 0]] ++ List.replicate 16 [0x302F0000, 0] ++ [[0x30310000, 0]]

end ConcreteRuns

/-- C8 counterexample: `SetProductInstanceID` accepts a 42-character string,
which occupies 43 bytes including its null terminator; the claim that strings
over 42 bytes including the terminator are rejected (previous value kept) is
therefore false on the code: the guard is `strlen >= 43`. -/
theorem setProductInstanceID_accepts_43_bytes :
    (setProductInstanceID initialState piid42).ProductInstanceID = piid42 ∧
    piid42.length + 1 = 43 ∧
    (setProductInstanceID initialState piid42).ProductInstanceID ≠
      initialState.ProductInstanceID := by
  decide

/-- C8 (amended): `SetEndpointName` stores its argument iff it is non-empty
and occupies at most 98 bytes including the null terminator; on rejection the
stored name is unchanged.  `SetProductInstanceID` stores its argument iff it
is non-empty and occupies at most 43 bytes including the null terminator
(i.e. at most 42 characters); on rejection the stored id is unchanged.
Neither setter touches the other string. -/
theorem setter_length_limits (st : HandlerState) (name piid : List Nat) :
    (setEndpointName st name).EndpointName =
      (if 1 ≤ name.length ∧ name.length + 1 ≤ 98 then name else st.EndpointName) ∧
    (setEndpointName st name).ProductInstanceID = st.ProductInstanceID ∧
    (setProductInstanceID st piid).ProductInstanceID =
      (if 1 ≤ piid.length ∧ piid.length + 1 ≤ 43 then piid else st.ProductInstanceID) ∧
    (setProductInstanceID st piid).EndpointName = st.EndpointName := by
  unfold setEndpointName setProductInstanceID
  unfold MAX_UMP_ENDPOINT_NAME_LEN MAX_UMP_PRODUCT_INSTANCE_ID_LEN
  refine ⟨?_, ?_, ?_, ?_⟩ <;> split_ifs <;> first | rfl | (exfalso; omega)

set_option maxRecDepth 400000 in
/-- C6: with FEC enabled the datagram built by GenerateUMPCommand does not
always fit the limits the specification requires.  In the reachable state
`fecFullState` (an opened session after five rounds of 64 outbound words)
the call returns 326 words: 1304 bytes, which exceeds the one-UDP-packet
ceiling of 1024 bytes, and which also overruns the 65-word `UMPCommand[65]`
stack buffer RunSession passes to GenerateUMPCommand. -/
theorem generateUMPCommand_overflows_buffer :
    (generateUMPCommand fecFullState).1 = 326 ∧
    1024 < 326 * 4 ∧ 65 < 326 := by
  refine ⟨by decide, by norm_num, by norm_num⟩

/-- C9: the SYSEX End path of RebuildSYSEXFromUMP has no bounds check, so a
Start/Continue/End sequence can write past the 256-byte `SYSEXBuffer`: on the
stream `sysexOverflowPackets` the decoder stores bytes at indices 256 and
beyond, refuting the claim that every written index stays below
`MAX_SYSEX_SIZE`. -/
theorem rebuildSYSEX_writes_out_of_bounds :
    ¬ (∀ i ∈ (rebuildRun initDecoder sysexOverflowPackets).2, i < MAX_SYSEX_SIZE) := by
  decide

section PhaseLemmas

lemma timerPhase_preserves (st : HandlerState) :
    (timerPhase st).SessionState = st.SessionState ∧
    (timerPhase st).SessionPartnerIP = st.SessionPartnerIP ∧
    (timerPhase st).SessionPartnerPort = st.SessionPartnerPort ∧
    (timerPhase st).TimeOutRemote = st.TimeOutRemote ∧
    (timerPhase st).SocketLocked = st.SocketLocked ∧
    (timerPhase st).PeerClosedSession = st.PeerClosedSession ∧
    (timerPhase st).ConnectionLost = st.ConnectionLost ∧
    (timerPhase st).IsInitiatorNode = st.IsInitiatorNode := by
  unfold timerPhase
  refine ⟨?_, ?_, ?_, ?_, ?_, ?_, ?_, ?_⟩ <;> dsimp only <;> (repeat' split) <;> rfl

lemma generate_preserves (st : HandlerState) :
    (generateUMPCommand st).2.1.SessionState = st.SessionState ∧
    (generateUMPCommand st).2.1.SessionPartnerIP = st.SessionPartnerIP ∧
    (generateUMPCommand st).2.1.SessionPartnerPort = st.SessionPartnerPort ∧
    (generateUMPCommand st).2.1.TimeOutRemote = st.TimeOutRemote ∧
    (generateUMPCommand st).2.1.TimerRunning = st.TimerRunning ∧
    (generateUMPCommand st).2.1.TimerEvent = st.TimerEvent ∧
    (generateUMPCommand st).2.1.SocketLocked = st.SocketLocked ∧
    (generateUMPCommand st).2.1.PeerClosedSession = st.PeerClosedSession ∧
    (generateUMPCommand st).2.1.ConnectionLost = st.ConnectionLost ∧
    (generateUMPCommand st).2.1.IsInitiatorNode = st.IsInitiatorNode ∧
    (generateUMPCommand st).2.1.InviteCount = st.InviteCount ∧
    (generateUMPCommand st).2.1.EventTime = st.EventTime ∧
    (generateUMPCommand st).2.1.PINGDelayCounter = st.PINGDelayCounter ∧
    (generateUMPCommand st).2.1.PINGIdCounter = st.PINGIdCounter ∧
    (generateUMPCommand st).2.1.ReceivedSequenceCounters = st.ReceivedSequenceCounters := by
  unfold generateUMPCommand
  refine ⟨?_, ?_, ?_, ?_, ?_, ?_, ?_, ?_, ?_, ?_, ?_, ?_, ?_, ?_, ?_⟩ <;>
    dsimp only <;> (repeat' split) <;> rfl

lemma timeoutPhase_not_opened (st : HandlerState)
    (h : st.SessionState ≠ SESSION_OPENED) : timeoutPhase st = (st, []) := by
  unfold timeoutPhase
  simp [h]

lemma recvProcess_not_opened (sip sport : Nat) (st : HandlerState)
    (cmds : List NetCmd) (h : st.SessionState ≠ SESSION_OPENED) :
    recvProcess sip sport st cmds = (st, []) := by
  induction cmds with
  | nil => rfl
  | cons c rest ih =>
    cases c <;> simp only [recvProcess]
    case umpData buf =>
      (repeat' split) <;> first | exact ih | exact absurd (by assumption) h
    case pingReply =>
      rw [if_neg h]
      exact ih
    all_goals exact ih

lemma pingFlagPhase_state (st : HandlerState) (fl : RecvFlags) :
    (pingFlagPhase st fl).1 = st := by
  unfold pingFlagPhase
  split <;> rfl

lemma invitationFlagPhase_not_waiting (st : HandlerState) (fl : RecvFlags)
    (sip sport : Nat) (h : st.SessionState ≠ SESSION_WAIT_INVITE) :
    (invitationFlagPhase st fl sip sport).1 = st := by
  unfold invitationFlagPhase
  (repeat' split) <;> first | rfl | exact absurd (by assumption) h

lemma invitationFlagPhase_no_invitation (st : HandlerState) (fl : RecvFlags)
    (sip sport : Nat) (h : fl.invitationReceived = false) :
    invitationFlagPhase st fl sip sport = (st, []) := by
  unfold invitationFlagPhase
  simp [h]

lemma pingFlagPhase_no_ping (st : HandlerState) (fl : RecvFlags)
    (h : fl.pingReceived = false) : pingFlagPhase st fl = (st, []) := by
  unfold pingFlagPhase
  simp [h]

lemma byeFlagPhase_no_bye (st : HandlerState) (fl : RecvFlags) (sip sport : Nat)
    (h : fl.byeReceived = false) :
    byeFlagPhase st fl sip sport = (st, []) := by
  unfold byeFlagPhase
  simp [h]

end PhaseLemmas

/-- C7 counterexample: `CloseSession` called on an initiator in state Invite
is a no-op (the state stays Invite and nothing is sent), and the very next
RunSession tick still emits an INVITATION packet, refuting the claim that
after close() an initiator emits no further invitations. -/
theorem closeSession_invite_keeps_inviting :
    (closeSession inviteState).1.SessionState = SESSION_INVITE ∧
    (closeSession inviteState).2 = [] ∧
    NetOutput.invitation ∈ (runSession (closeSession inviteState).1 none).2.1 := by
  decide

/-- C7 (amended): `CloseSession` terminates the session only from the Opened
state, where it sends BYE(USER_TERMINATED) to the peer and transitions to
Closed (the socket itself is closed separately by the destructor's
CloseSockets).  In every other state, including Invite, the call leaves the
handler unchanged and sends nothing, and an unlocked initiator whose
invitation timer fires keeps emitting INVITATION packets on subsequent ticks
until the state leaves Invite. -/
theorem closeSession_spec (st : HandlerState) :
    (st.SessionState = SESSION_OPENED →
      closeSession st =
        ({ st with SessionState := SESSION_CLOSED },
          [NetOutput.bye BYE_USER_TERMINATED st.SessionPartnerIP st.SessionPartnerPort])) ∧
    (st.SessionState ≠ SESSION_OPENED → closeSession st = (st, [])) ∧
    (st.SessionState = SESSION_INVITE → st.SocketLocked = false →
      (timerPhase st).TimerRunning = false → (timerPhase st).TimerEvent = true →
      NetOutput.invitation ∈ (runSession (closeSession st).1 none).2.1) := by
  refine ⟨fun h => by unfold closeSession; simp [h],
          fun h => by unfold closeSession; simp [h], ?_⟩
  intro hInv hLock hTR hTE
  have hne : st.SessionState ≠ SESSION_OPENED := by rw [hInv]; decide
  have hclosed : closeSession st = (st, []) := by unfold closeSession; simp [hne]
  rw [hclosed]
  have h1s : (timerPhase st).SessionState = SESSION_INVITE := by
    rw [(timerPhase_preserves st).1, hInv]
  have h1no : (timerPhase st).SessionState ≠ SESSION_OPENED := by rw [h1s]; decide
  obtain ⟨g1, g2, g3, g4, g5, g6, -⟩ := generate_preserves (timerPhase st)
  have hgr : (generateUMPCommand (timerPhase st)).2.1.TimerRunning = false := by
    rw [g5]; exact hTR
  have hge : (generateUMPCommand (timerPhase st)).2.1.TimerEvent = true := by
    rw [g6]; exact hTE
  have hgs : (generateUMPCommand (timerPhase st)).2.1.SessionState = SESSION_INVITE := by
    rw [g1]; exact h1s
  simp only [runSession, hLock, Bool.false_eq_true, if_false, Option.getD_none,
    timeoutPhase_not_opened _ h1no, recvProcess, recvFlags,
    invitationFlagPhase_no_invitation _ noFlags 0 0 rfl,
    pingFlagPhase_no_ping _ noFlags rfl,
    byeFlagPhase_no_bye _ noFlags 0 0 rfl]
  unfold statePhase
  rw [if_neg (by rw [h1s]; decide)]
  simp only [hgs, hgr, hge]
  simp [SESSION_INVITE, SESSION_OPENED, noFlags]

/-- Witness for `closeSession_spec`: on the concrete initiator endpoint
`inviteState` (state Invite), close is a no-op and the next tick still emits
an invitation. -/
theorem closeSession_spec_witness :
    closeSession inviteState = (inviteState, []) ∧
    NetOutput.invitation ∈ (runSession (closeSession inviteState).1 none).2.1 :=
  ⟨(closeSession_spec inviteState).2.1 (by decide),
   (closeSession_spec inviteState).2.2 (by decide) (by decide) (by decide) (by decide)⟩

section SendLemmas

lemma fifoAdvance_mod (t : Nat) (ht : t < 1024) :
    fifoAdvance t = (t + 1) % 1024 := by
  unfold fifoAdvance UMP_FIFO_SIZE
  split <;> omega

lemma sendLoop_true_iff (readPtr : Nat) (ws : List Nat) :
    ∀ (fifo : Nat → Nat) (t : Nat), t < 1024 →
      ((sendLoop readPtr ws fifo t).1 = true ↔
        ∀ j < ws.length, (t + j + 1) % 1024 ≠ readPtr) := by
  induction ws with
  | nil =>
    intro fifo t _
    simp [sendLoop]
  | cons w ws ih =>
    intro fifo t ht
    simp only [sendLoop]
    rw [fifoAdvance_mod t ht]
    by_cases hc : (t + 1) % 1024 = readPtr
    · rw [if_pos hc]
      simp only [List.length_cons]
      constructor
      · intro h
        exact absurd h (by simp)
      · intro h
        exact absurd hc (by simpa using h 0 (Nat.succ_pos _))
    · rw [if_neg hc]
      rw [ih _ _ (Nat.mod_lt _ (by norm_num))]
      constructor
      · intro h j hj
        match j with
        | 0 => simpa using hc
        | j' + 1 =>
          have hh := h j' (by simpa using hj)
          omega
      · intro h j hj
        have hh := h (j + 1) (by simpa using hj)
        omega

lemma sendUMP_fst_opened (st : HandlerState) (u : List Nat)
    (h : st.SessionState = SESSION_OPENED) :
    (sendUMPMessage st u).1 =
      (sendLoop st.ReadPtr
        ((List.range (UMPSize.getD (mtOf (u.headD 0)) 0)).map fun j => u.getD j 0)
        st.FIFO st.WritePtr).1 := by
  unfold sendUMPMessage
  rw [if_neg (by simp [h])]
  dsimp only
  split <;> simp_all

end SendLemmas

/-- C4: `SendUMPMessage` returns false whenever the session is not Opened
(leaving the state untouched); when Opened it returns true iff the whole
message — whose word count is given by the MT nibble of its first word —
fits in the 1024-word FIFO, i.e. iff the provisional write cursor never
lands on the read cursor while advancing over the message; and whenever it
returns false the published write cursor (and the read cursor) is unchanged,
so no words are appended from the consumer's point of view. -/
theorem sendUMPMessage_spec (st : HandlerState) (umpData : List Nat)
    (hw : st.WritePtr < 1024) :
    (st.SessionState ≠ SESSION_OPENED → sendUMPMessage st umpData = (false, st)) ∧
    (st.SessionState = SESSION_OPENED →
      ((sendUMPMessage st umpData).1 = true ↔
        ∀ j < UMPSize.getD (mtOf (umpData.headD 0)) 0,
          (st.WritePtr + j + 1) % 1024 ≠ st.ReadPtr)) ∧
    ((sendUMPMessage st umpData).1 = false →
      (sendUMPMessage st umpData).2.WritePtr = st.WritePtr ∧
      (sendUMPMessage st umpData).2.ReadPtr = st.ReadPtr) := by
  refine ⟨fun h => by unfold sendUMPMessage; simp [h], ?_, ?_⟩
  · intro h
    rw [sendUMP_fst_opened st umpData h]
    have key := sendLoop_true_iff st.ReadPtr
      ((List.range (UMPSize.getD (mtOf (umpData.headD 0)) 0)).map fun j => umpData.getD j 0)
      st.FIFO st.WritePtr hw
    simpa using key
  · intro hf
    by_cases h : st.SessionState = SESSION_OPENED
    · unfold sendUMPMessage at hf ⊢
      rw [if_neg (by simp [h])] at hf ⊢
      dsimp only at hf ⊢
      split at hf
      next hcond => simp at hf
      next hcond =>
        rw [if_neg hcond]
        exact ⟨rfl, rfl⟩
    · unfold sendUMPMessage at hf ⊢
      rw [if_pos (by simp [h])] at hf ⊢
      exact ⟨rfl, rfl⟩

/-- Witness for `sendUMPMessage_spec`: on the concrete opened endpoint
`openedState` (write cursor 0, read cursor 0) a four-word MT-5 message fits
and the call returns true. -/
theorem sendUMPMessage_spec_witness :
    (sendUMPMessage openedState mt5msg).1 = true :=
  ((sendUMPMessage_spec openedState mt5msg (by decide)).2.1 (by decide)).mpr (by decide)

section SequenceLemmas

lemma newUMPPacket_headD_mod (st : HandlerState) :
    (newUMPPacket st).headD 0 % 2 ^ 16 = st.UMPSequenceCounter % 2 ^ 16 := by
  unfold newUMPPacket
  simp only [List.headD_cons]
  omega

lemma sendUMP_counter (st : HandlerState) (u : List Nat) :
    (sendUMPMessage st u).2.UMPSequenceCounter = st.UMPSequenceCounter := by
  unfold sendUMPMessage
  dsimp only
  (repeat' split) <;> rfl

lemma generate_counter (st : HandlerState) :
    ((generateUMPCommand st).1 = 0 ↔ st.WritePtr = st.ReadPtr) ∧
    (generateUMPCommand st).2.1.UMPSequenceCounter =
      (if (generateUMPCommand st).1 = 0 then st.UMPSequenceCounter
       else (st.UMPSequenceCounter + 1) % 2 ^ 16) := by
  unfold generateUMPCommand
  by_cases h : st.WritePtr = st.ReadPtr
  · simp [h]
  · by_cases h2 : st.ErrorCorrectionMode = ERROR_CORRECTION_FEC <;> simp [h, h2]

lemma runOps_seq (ops : List UMPOp) : ∀ st : HandlerState,
    (runOps st ops).2 =
      (List.range (runOps st ops).2.length).map
        fun k => (st.UMPSequenceCounter + k) % 2 ^ 16 := by
  induction ops with
  | nil =>
    intro st
    simp [runOps]
  | cons op rest ih =>
    intro st
    cases op with
    | push msg =>
      simp only [runOps]
      rw [ih, sendUMP_counter]
      simp only [List.length_map, List.length_range]
    | tick =>
      simp only [runOps]
      by_cases h0 : (generateUMPCommand st).1 = 0
      · rw [if_pos h0, ih]
        have hc := (generate_counter st).2
        rw [if_pos h0] at hc
        rw [hc]
        simp only [List.length_map, List.length_range]
      · rw [if_neg h0]
        have hc := (generate_counter st).2
        rw [if_neg h0] at hc
        show (newUMPPacket st).headD 0 % 2 ^ 16 :: (runOps (generateUMPCommand st).2.1 rest).2 = _
        rw [List.length_cons, List.range_succ_eq_map, List.map_cons, List.map_map]
        congr 1
        · rw [Nat.add_zero, newUMPPacket_headD_mod]
        · rw [ih ((generateUMPCommand st).2.1), hc]
          simp only [List.length_map, List.length_range]
          apply List.map_congr_left
          intro k _
          simp only [Function.comp]
          omega

end SequenceLemmas

/-- C1: sequence numbering of the outbound pipeline.  Over any run of pushes
and ticks, the packet-number fields of the emitted UMP-data packets are
consecutive values modulo 2¹⁶ starting at the handler's current sequence
counter, with no gaps; a GenerateUMPCommand call returns 0 exactly when the
outbound FIFO is empty at the write-cursor snapshot, and then leaves the
sequence counter unchanged, while a non-zero call stamps the current counter
into the new packet and advances the counter by exactly 1 modulo 2¹⁶ (a
single increment per call, so the FEC-tail copies of earlier packets never
increment it); the counter starts at 0 after session start and after a FEC
reset. -/
theorem ump_sequence_numbers (st : HandlerState) (ops : List UMPOp)
    (dip dport lport : Nat) (role : Bool) :
    (runOps st ops).2 =
      (List.range (runOps st ops).2.length).map
        (fun k => (st.UMPSequenceCounter + k) % 2 ^ 16) ∧
    ((generateUMPCommand st).1 = 0 ↔ st.WritePtr = st.ReadPtr) ∧
    (generateUMPCommand st).2.1.UMPSequenceCounter =
      (if (generateUMPCommand st).1 = 0 then st.UMPSequenceCounter
       else (st.UMPSequenceCounter + 1) % 2 ^ 16) ∧
    (newUMPPacket st).headD 0 % 2 ^ 16 = st.UMPSequenceCounter % 2 ^ 16 ∧
    (resetFECMemory st).UMPSequenceCounter = 0 ∧
    (initiateSession st dip dport lport role).UMPSequenceCounter = 0 := by
  refine ⟨runOps_seq ops st, (generate_counter st).1, (generate_counter st).2,
    newUMPPacket_headD_mod st, rfl, ?_⟩
  unfold initiateSession prepareTimerEvent
  cases role <;> rfl

/-- C5 counterexample: an initiator in state Invite that receives
INVITATION_ACCEPTED from UDP sender (5, 7777) opens the session but keeps
`SessionPartnerPort = 9000`, the port configured at InitiateSession — the
code never copies the sender's port, refuting the claim that both peer_ip
and peer_port are set from the UDP sender. -/
theorem invitation_accepted_ignores_sender_port :
    inviteTicked.SessionState = SESSION_INVITE ∧
    inviteTicked.IsInitiatorNode = true ∧
    inviteTicked.SessionPartnerPort = 9000 ∧
    (runSession inviteTicked (some (5, 7777, [NetCmd.invitationAccepted]))).1.SessionState
      = SESSION_OPENED ∧
    (runSession inviteTicked (some (5, 7777, [NetCmd.invitationAccepted]))).1.SessionPartnerPort
      = 9000 ∧
    (9000 : Nat) ≠ 7777 := by
  decide

/-- C5 (amended): for an endpoint in state Invite with an unlocked socket,
a tick whose received datagram carries an INVITATION_ACCEPTED command (and
no BYE) sets `SessionPartnerIP` from the UDP sender, leaves
`SessionPartnerPort` at the value configured when the invitation was sent,
resets the FEC memory (sequence counter 0, round-robin slot 0, all slots
unfilled, dedup window refilled with 0xFFFF) and transitions to Opened; the
timeout counter is not modified by this handling (it already holds 30000 in
the reachable Invite states, set by InitiateSession or the initiator
restart). -/
theorem invitation_accepted_spec (st : HandlerState) (sip sport : Nat)
    (cmds : List NetCmd)
    (hLock : st.SocketLocked = false)
    (hInv : st.SessionState = SESSION_INVITE)
    (hAcc : (recvFlags cmds noFlags).invitationAccepted = true)
    (hBye : (recvFlags cmds noFlags).byeReceived = false) :
    (runSession st (some (sip, sport, cmds))).1.SessionPartnerIP = sip ∧
    (runSession st (some (sip, sport, cmds))).1.SessionPartnerPort = st.SessionPartnerPort ∧
    (runSession st (some (sip, sport, cmds))).1.SessionState = SESSION_OPENED ∧
    (runSession st (some (sip, sport, cmds))).1.UMPSequenceCounter = 0 ∧
    (runSession st (some (sip, sport, cmds))).1.NextFECSlot = 0 ∧
    (∀ s ∈ (runSession st (some (sip, sport, cmds))).1.FECMemory, s.Filled = false) ∧
    (runSession st (some (sip, sport, cmds))).1.ReceivedSequenceCounters =
      List.replicate NUM_FEC_ENTRIES 0xFFFF ∧
    (runSession st (some (sip, sport, cmds))).1.TimeOutRemote = st.TimeOutRemote := by
  have h1s : (timerPhase st).SessionState = SESSION_INVITE := by
    rw [(timerPhase_preserves st).1, hInv]
  have h1no : (timerPhase st).SessionState ≠ SESSION_OPENED := by rw [h1s]; decide
  have h1nw : (timerPhase st).SessionState ≠ SESSION_WAIT_INVITE := by rw [h1s]; decide
  obtain ⟨tp1, tp2, tp3, tp4, -, -, -, -⟩ := timerPhase_preserves st
  obtain ⟨g1, g2, g3, g4, -, -, -, -, -, -, -, -, -, -, -⟩ :=
    generate_preserves (timerPhase st)
  have hgs : (generateUMPCommand (timerPhase st)).2.1.SessionState = SESSION_INVITE := by
    rw [g1, h1s]
  simp only [runSession, hLock, Bool.false_eq_true, if_false, Option.getD_some,
    timeoutPhase_not_opened _ h1no,
    recvProcess_not_opened _ _ _ _ h1no,
    invitationFlagPhase_not_waiting _ _ _ _ h1nw,
    pingFlagPhase_state,
    byeFlagPhase_no_bye _ _ _ _ hBye]
  unfold statePhase
  rw [if_neg (by rw [h1s]; decide)]
  dsimp only
  rw [if_neg (by rw [hgs]; decide), if_pos hgs, if_pos hAcc]
  refine ⟨?_, ?_, ?_, ?_, ?_, ?_, ?_, ?_⟩
  · simp [resetFECMemory]
  · simp [resetFECMemory, g3, tp3]
  · simp [resetFECMemory]
  · simp [resetFECMemory]
  · simp [resetFECMemory]
  · intro s hs
    simp only [resetFECMemory, List.mem_map] at hs
    obtain ⟨a, -, rfl⟩ := hs
    rfl
  · simp [resetFECMemory]
  · simp [resetFECMemory, g4, tp4]

/-- Witness for `invitation_accepted_spec`: the concrete initiator
`inviteTicked` (state Invite, configured partner port 9000) accepting from
sender (5, 7777) adopts IP 5 and keeps port 9000. -/
theorem invitation_accepted_spec_witness :
    (runSession inviteTicked (some (5, 7777, [NetCmd.invitationAccepted]))).1.SessionPartnerIP
      = 5 ∧
    (runSession inviteTicked (some (5, 7777, [NetCmd.invitationAccepted]))).1.SessionPartnerPort
      = inviteTicked.SessionPartnerPort :=
  ⟨(invitation_accepted_spec inviteTicked 5 7777 [NetCmd.invitationAccepted]
      (by decide) (by decide) (by decide) (by decide)).1,
   (invitation_accepted_spec inviteTicked 5 7777 [NetCmd.invitationAccepted]
      (by decide) (by decide) (by decide) (by decide)).2.1⟩

section PeerClosedLemmas

lemma resetFEC_peer (st : HandlerState) :
    (resetFECMemory st).PeerClosedSession = st.PeerClosedSession := rfl

lemma initiate_peer (st : HandlerState) (a b c : Nat) (r : Bool) :
    (initiateSession st a b c r).PeerClosedSession = st.PeerClosedSession := by
  unfold initiateSession prepareTimerEvent
  cases r <;> rfl

lemma close_peer (st : HandlerState) :
    (closeSession st).1.PeerClosedSession = st.PeerClosedSession := by
  unfold closeSession
  split <;> rfl

lemma restart_peer (st : HandlerState) :
    (restartSessionInitiator st).PeerClosedSession = st.PeerClosedSession := by
  unfold restartSessionInitiator prepareTimerEvent
  split <;> rfl

lemma readLost_peer (st : HandlerState) :
    (readAndResetConnectionLost st).2.PeerClosedSession = st.PeerClosedSession := by
  unfold readAndResetConnectionLost
  split <;> rfl

lemma send_peer (st : HandlerState) (u : List Nat) :
    (sendUMPMessage st u).2.PeerClosedSession = st.PeerClosedSession := by
  unfold sendUMPMessage
  dsimp only
  (repeat' split) <;> rfl

lemma setName_peer (st : HandlerState) (n : List Nat) :
    (setEndpointName st n).PeerClosedSession = st.PeerClosedSession := by
  unfold setEndpointName
  (repeat' split) <;> rfl

lemma setPIID_peer (st : HandlerState) (p : List Nat) :
    (setProductInstanceID st p).PeerClosedSession = st.PeerClosedSession := by
  unfold setProductInstanceID
  (repeat' split) <;> rfl

lemma processIncoming_peer (st : HandlerState) (buf : List Nat) :
    (processIncomingUMP st buf).1.PeerClosedSession = st.PeerClosedSession := by
  unfold processIncomingUMP
  dsimp only
  split <;> rfl

lemma recvProcess_peer (sip sport : Nat) (cmds : List NetCmd) :
    ∀ st : HandlerState,
      (recvProcess sip sport st cmds).1.PeerClosedSession = st.PeerClosedSession := by
  induction cmds with
  | nil => intro st; rfl
  | cons c rest ih =>
    intro st
    cases c <;> simp only [recvProcess]
    case umpData buf =>
      (repeat' split) <;> simp [ih, processIncoming_peer]
    case pingReply =>
      rw [ih]
      split <;> rfl
    all_goals exact ih st

lemma timeout_peer (st : HandlerState) :
    (timeoutPhase st).1.PeerClosedSession = st.PeerClosedSession := by
  unfold timeoutPhase
  dsimp only
  (repeat' split) <;> (try rw [restart_peer]) <;> rfl

lemma invFlag_peer (st : HandlerState) (fl : RecvFlags) (sip sport : Nat) :
    (invitationFlagPhase st fl sip sport).1.PeerClosedSession = st.PeerClosedSession := by
  unfold invitationFlagPhase
  (repeat' split) <;> rfl

lemma byeFlag_peer (st : HandlerState) (fl : RecvFlags) (sip sport : Nat) :
    (byeFlagPhase st fl sip sport).1.PeerClosedSession = st.PeerClosedSession := by
  unfold byeFlagPhase restartSessionInitiator prepareTimerEvent
  dsimp only
  (repeat' split) <;> rfl

lemma statePhase_peer (st : HandlerState) (fl : RecvFlags) (sip : Nat) :
    (statePhase st fl sip).1.PeerClosedSession = st.PeerClosedSession := by
  have g8 : (generateUMPCommand st).2.1.PeerClosedSession = st.PeerClosedSession :=
    (generate_preserves st).2.2.2.2.2.2.2.1
  unfold statePhase
  dsimp only
  (repeat' split) <;> simp [resetFECMemory, prepareTimerEvent, g8]

lemma runSession_peer (st : HandlerState) (recv : Option (Nat × Nat × List NetCmd)) :
    (runSession st recv).1.PeerClosedSession = st.PeerClosedSession := by
  unfold runSession
  dsimp only
  split
  · rfl
  · rw [statePhase_peer, byeFlag_peer, pingFlagPhase_state, invFlag_peer,
      recvProcess_peer, timeout_peer, (timerPhase_preserves st).2.2.2.2.2.1]

end PeerClosedLemmas

/-- Every handler state reachable from construction by the public interface:
InitiateSession, CloseSession, RunSession ticks with arbitrary received
datagrams, SendUMPMessage, RestartSessionInitiator, the two edge-triggered
readers, the name/id setters and the error-correction-mode selector. -/
inductive Reachable : HandlerState → Prop where
  | init : Reachable initialState
  | initiate (st : HandlerState) (dip dport lport : Nat) (role : Bool) :
      Reachable st → Reachable (initiateSession st dip dport lport role)
  | close (st : HandlerState) : Reachable st → Reachable (closeSession st).1
  | run (st : HandlerState) (recv : Option (Nat × Nat × List NetCmd)) :
      Reachable st → Reachable (runSession st recv).1
  | send (st : HandlerState) (msg : List Nat) :
      Reachable st → Reachable (sendUMPMessage st msg).2
  | restart (st : HandlerState) : Reachable st → Reachable (restartSessionInitiator st)
  | readLost (st : HandlerState) :
      Reachable st → Reachable (readAndResetConnectionLost st).2
  | readPeerClosed (st : HandlerState) :
      Reachable st → Reachable (remotePeerClosedSession st).2
  | setName (st : HandlerState) (name : List Nat) :
      Reachable st → Reachable (setEndpointName st name)
  | setPIID (st : HandlerState) (piid : List Nat) :
      Reachable st → Reachable (setProductInstanceID st piid)
  | setMode (st : HandlerState) (mode : Nat) :
      Reachable st → Reachable (selectErrorCorrectionMode st mode)

/-- C10: in every state reachable by any sequence of public operations and
received packets, the `PeerClosedSession` flag is false — receiving a BYE
from the current peer sets only `ConnectionLost` — so
`RemotePeerClosedSession` always returns false, even immediately after the
peer closes the session with a BYE. -/
theorem peerClosedSession_always_false (st : HandlerState) (h : Reachable st) :
    st.PeerClosedSession = false ∧ (remotePeerClosedSession st).1 = false := by
  have main : st.PeerClosedSession = false := by
    induction h with
    | init => rfl
    | initiate st dip dport lport role _ ih => rw [initiate_peer]; exact ih
    | close st _ ih => rw [close_peer]; exact ih
    | run st recv _ ih => rw [runSession_peer]; exact ih
    | send st msg _ ih => rw [send_peer]; exact ih
    | restart st _ ih => rw [restart_peer]; exact ih
    | readLost st _ ih => rw [readLost_peer]; exact ih
    | readPeerClosed st _ _ => rfl
    | setName st name _ ih => rw [setName_peer]; exact ih
    | setPIID st piid _ ih => rw [setPIID_peer]; exact ih
    | setMode st mode _ ih => exact ih
  exact ⟨main, main⟩

/-- Witness for `peerClosedSession_always_false`: a state that has actually
processed a BYE from its session partner while opened (the listener
`openedState` receiving BYE from (9, 9999)) still reports
`RemotePeerClosedSession() = false`. -/
theorem peerClosedSession_always_false_witness :
    (remotePeerClosedSession (runSession openedState (some (9, 9999, [NetCmd.bye]))).1).1
      = false :=
  (peerClosedSession_always_false (runSession openedState (some (9, 9999, [NetCmd.bye]))).1
    (Reachable.run _ _ (Reachable.run _ _ (Reachable.initiate _ _ _ _ _ Reachable.init)))).2

section FECProof

/-- Unwrap an optional packet into its word contribution. -/
def optPart (o : Option (List Nat)) : List Nat := o.getD []

lemma slotContents_eq (s : FECSlot) : slotContents s = optPart (slotOpt s) := by
  unfold slotContents slotOpt optPart
  split <;> rfl

lemma copyWords_length (fifo : Nat → Nat) : ∀ (n t : Nat),
    (copyWords fifo t n).2.length = n := by
  intro n
  induction n with
  | zero => intro t; rfl
  | succ n ih =>
    intro t
    simp [copyWords, ih]

lemma packLoop_acc_length (fifo : Nat → Nat) (endPtr : Nat) : ∀ (fuel tempPtr count : Nat)
    (acc : List Nat),
    (packLoop fifo endPtr fuel tempPtr count acc).2.2.length + count =
      (packLoop fifo endPtr fuel tempPtr count acc).2.1 + acc.length := by
  intro fuel
  induction fuel with
  | zero =>
    intro t c acc
    simp only [packLoop]
    omega
  | succ fuel ih =>
    intro t c acc
    unfold packLoop
    split
    · dsimp only
      omega
    · dsimp only
      split
      · have h := ih (copyWords fifo t (UMPSize.getD (mtOf (fifo t)) 0)).1
          (c + UMPSize.getD (mtOf (fifo t)) 0)
          (acc ++ (copyWords fifo t (UMPSize.getD (mtOf (fifo t)) 0)).2)
        have hcw := copyWords_length fifo (UMPSize.getD (mtOf (fifo t)) 0) t
        simp only [List.length_append, hcw] at h
        omega
      · dsimp only
        omega

lemma newUMPPacket_length (st : HandlerState) :
    (newUMPPacket st).length = (genPack st).2.1 + 1 := by
  unfold newUMPPacket genPack
  have := packLoop_acc_length st.FIFO st.WritePtr 65 st.ReadPtr 0 []
  simp only [List.length_cons, List.length_nil] at *
  omega

lemma list5_shape {α : Type} (l : List α) (h : l.length = 5) :
    ∃ a b c d e, l = [a, b, c, d, e] := by
  rcases l with _ | ⟨a, l⟩
  · simp at h
  rcases l with _ | ⟨b, l⟩
  · simp at h
  rcases l with _ | ⟨c, l⟩
  · simp at h
  rcases l with _ | ⟨d, l⟩
  · simp at h
  rcases l with _ | ⟨e, l⟩
  · simp at h
  rcases l with _ | ⟨f, l⟩
  · exact ⟨a, b, c, d, e, rfl⟩
  · simp at h

lemma last5_append (hist : List (List Nat)) (p : List Nat) :
    optPart (nthOpt hist.reverse 3) ++ (optPart (nthOpt hist.reverse 2) ++
      (optPart (nthOpt hist.reverse 1) ++ (optPart (nthOpt hist.reverse 0) ++ p))) =
    (lastN 5 (hist ++ [p])).flatten := by
  unfold lastN
  have hrev : (hist ++ [p]).reverse = p :: hist.reverse := by simp
  rw [hrev]
  generalize hist.reverse = r
  rcases r with _ | ⟨a, r⟩
  · simp [nthOpt, optPart]
  rcases r with _ | ⟨b, r⟩
  · simp [nthOpt, optPart]
  rcases r with _ | ⟨c, r⟩
  · simp [nthOpt, optPart]
  rcases r with _ | ⟨d, r⟩
  · simp [nthOpt, optPart]
  · simp [nthOpt, optPart]

lemma lastN_concat_getLast (l : List (List Nat)) (x : List Nat) :
    (lastN 5 (l ++ [x])).getLast? = some x := by
  unfold lastN
  have hrev : (l ++ [x]).reverse = x :: l.reverse := by simp
  rw [hrev]
  rcases l.reverse with _ | ⟨a, r⟩
  · simp
  · simp [List.getLast?_concat]

lemma fec_insert (mem : List FECSlot) (next : Nat) (hist : List (List Nat))
    (p : List Nat)
    (hlen : mem.length = 5) (hnext : next < 5)
    (hinv : ∀ i < 5, slotOpt (mem.getD ((next + 4 - i) % 5) defaultSlot)
      = nthOpt hist.reverse i) :
    fecReadout (mem.set next ⟨true, p.length, p⟩) (fecAdvance next) 5 =
      (lastN 5 (hist ++ [p])).flatten ∧
    (∀ i < 5, slotOpt ((mem.set next ⟨true, p.length, p⟩).getD
        ((fecAdvance next + 4 - i) % 5) defaultSlot) = nthOpt (hist ++ [p]).reverse i) := by
  obtain ⟨a, b, c, d, e, rfl⟩ := list5_shape mem hlen
  have h0 := hinv 0 (by norm_num)
  have h1 := hinv 1 (by norm_num)
  have h2 := hinv 2 (by norm_num)
  have h3 := hinv 3 (by norm_num)
  have hrev : (hist ++ [p]).reverse = p :: hist.reverse := by simp
  have hnew : slotContents ⟨true, p.length, p⟩ = p := by
    simp [slotContents, List.take_length]
  constructor
  · interval_cases next <;>
    · norm_num [List.getD] at h0 h1 h2 h3
      norm_num [List.set, fecReadout, fecAdvance, NUM_FEC_ENTRIES, List.getD, hnew]
      simp only [slotContents_eq, h0, h1, h2, h3, List.append_nil]
      exact last5_append hist p
  · intro i hi
    interval_cases next <;> interval_cases i <;>
    · norm_num [List.getD] at h0 h1 h2 h3
      first
      | (norm_num [List.set, fecAdvance, NUM_FEC_ENTRIES, List.getD, hrev, nthOpt,
          slotOpt, List.take_length]; done)
      | (norm_num [List.set, fecAdvance, NUM_FEC_ENTRIES, List.getD, hrev, nthOpt,
          h0, h1, h2, h3]; done)

end FECProof

/-- C2: for every state satisfying the FEC-ring reachability invariant
(`FECInv st hist`: the five slots hold the last `min 5 |hist|` packets sent
since the last FEC reset) with error-correction mode FEC and a non-empty
outbound FIFO, GenerateUMPCommand emits a datagram consisting of the 32-bit
MIDI signature word followed exactly by the concatenation of the at-most-5
most recent command packets in chronological oldest-to-newest order — the
packet just assembled from the FIFO being the last element — and the FEC
ring invariant is preserved with that packet appended to the history. -/
theorem fec_datagram_shape (st : HandlerState) (hist : List (List Nat))
    (hinv : FECInv st hist)
    (hmode : st.ErrorCorrectionMode = ERROR_CORRECTION_FEC)
    (hne : st.WritePtr ≠ st.ReadPtr) :
    (generateUMPCommand st).1 ≠ 0 ∧
    (generateUMPCommand st).2.2 =
      UMP_SIGNATURE :: (lastN 5 (hist ++ [newUMPPacket st])).flatten ∧
    (lastN 5 (hist ++ [newUMPPacket st])).getLast? = some (newUMPPacket st) ∧
    FECInv (generateUMPCommand st).2.1 (hist ++ [newUMPPacket st]) := by
  obtain ⟨hlen, hnext, hslots⟩ := hinv
  have hkey := fec_insert st.FECMemory st.NextFECSlot hist (newUMPPacket st)
    hlen hnext hslots
  have hsz : (⟨true, (genPack st).2.1 + 1, newUMPPacket st⟩ : FECSlot)
      = ⟨true, (newUMPPacket st).length, newUMPPacket st⟩ := by
    rw [newUMPPacket_length]
  unfold generateUMPCommand
  rw [if_neg hne]
  dsimp only
  rw [if_pos hmode]
  dsimp only
  refine ⟨by simp, ?_, lastN_concat_getLast hist (newUMPPacket st), ?_, ?_, ?_⟩
  · rw [hsz]
    exact congrArg (UMP_SIGNATURE :: ·) hkey.1
  · rw [List.length_set]
    exact hlen
  · dsimp only
    unfold fecAdvance
    split <;> (simp only [NUM_FEC_ENTRIES] at *; omega)
  · rw [hsz]
    exact hkey.2

/-- A minimal state for exercising `fec_datagram_shape` concretely: the
fresh endpoint with one word sitting in the outbound FIFO. -/
def fecWitnessState : HandlerState := { initialState with WritePtr := 1 }

/-- Witness for `fec_datagram_shape`: the fresh endpoint (empty FEC history)
with one queued word emits exactly the signature followed by the single
just-built packet. -/
theorem fec_datagram_shape_witness :
    FECInv fecWitnessState [] ∧
    (generateUMPCommand fecWitnessState).2.2 =
      UMP_SIGNATURE :: (lastN 5 ([] ++ [newUMPPacket fecWitnessState])).flatten :=
  ⟨by decide, (fec_datagram_shape fecWitnessState [] (by decide) (by decide) (by decide)).2.1⟩

section DedupProof

lemma list_len1 {α : Type} (l : List α) (h : l.length = 1) : ∃ a, l = [a] := by
  rcases l with _ | ⟨a, _ | ⟨b, l⟩⟩ <;> simp at h
  exact ⟨a, rfl⟩

lemma list_len2 {α : Type} (l : List α) (h : l.length = 2) : ∃ a b, l = [a, b] := by
  rcases l with _ | ⟨a, _ | ⟨b, _ | ⟨c, l⟩⟩⟩ <;> simp at h
  exact ⟨a, b, rfl⟩

lemma list_len3 {α : Type} (l : List α) (h : l.length = 3) :
    ∃ a b c, l = [a, b, c] := by
  rcases l with _ | ⟨a, _ | ⟨b, _ | ⟨c, _ | ⟨d, l⟩⟩⟩⟩ <;> simp at h
  exact ⟨a, b, c, rfl⟩

lemma list_len4 {α : Type} (l : List α) (h : l.length = 4) :
    ∃ a b c d, l = [a, b, c, d] := by
  rcases l with _ | ⟨a, _ | ⟨b, _ | ⟨c, _ | ⟨d, _ | ⟨e, l⟩⟩⟩⟩⟩ <;> simp at h
  exact ⟨a, b, c, d, rfl⟩

lemma umpsize_cases (w : Nat) :
    UMPSize.getD (mtOf w) 0 = 1 ∨ UMPSize.getD (mtOf w) 0 = 2 ∨
    UMPSize.getD (mtOf w) 0 = 3 ∨ UMPSize.getD (mtOf w) 0 = 4 := by
  have h : mtOf w < 16 := Nat.mod_lt _ (by norm_num)
  set k := mtOf w with hk
  interval_cases k <;> simp [UMPSize, List.getD]

lemma window_mem_iff (l : List Nat) (hlen : l.length = 5) (pn : Nat) :
    ((List.range NUM_FEC_ENTRIES).any fun i => pn = l.getD i 0) = true ↔ pn ∈ l := by
  obtain ⟨a, b, c, d, e, rfl⟩ := list5_shape l hlen
  norm_num [NUM_FEC_ENTRIES, show List.range 5 = [0, 1, 2, 3, 4] from rfl, List.getD]

lemma processIncomingUMP_dup (st : HandlerState) (buf : List Nat)
    (hlen : st.ReceivedSequenceCounters.length = 5)
    (hmem : packetNumberOfBuf buf ∈ st.ReceivedSequenceCounters) :
    processIncomingUMP st buf = (st, []) := by
  unfold processIncomingUMP
  rw [if_pos ((window_mem_iff _ hlen _).mpr hmem)]

lemma processIncomingUMP_fresh_window (st : HandlerState) (buf : List Nat)
    (hlen : st.ReceivedSequenceCounters.length = 5)
    (hmem : packetNumberOfBuf buf ∉ st.ReceivedSequenceCounters) :
    (processIncomingUMP st buf).1.ReceivedSequenceCounters =
      st.ReceivedSequenceCounters.tail ++ [packetNumberOfBuf buf] ∧
    (processIncomingUMP st buf).2 =
      parseLoop buf (buf.getD 1 0) (buf.getD 1 0) 0 4 := by
  unfold processIncomingUMP
  rw [if_neg (fun hc => hmem ((window_mem_iff _ hlen _).mp hc))]
  obtain ⟨a, b, c, d, e, hw⟩ := list5_shape st.ReceivedSequenceCounters hlen
  refine ⟨?_, rfl⟩
  rw [hw]
  norm_num [NUM_FEC_ENTRIES, show List.range 5 = [0, 1, 2, 3, 4] from rfl, List.getD]

lemma window_check_after (st : HandlerState) (buf : List Nat) :
    ((List.range NUM_FEC_ENTRIES).any fun i =>
      packetNumberOfBuf buf =
        (processIncomingUMP st buf).1.ReceivedSequenceCounters.getD i 0) = true := by
  by_cases h : ((List.range NUM_FEC_ENTRIES).any fun i =>
      packetNumberOfBuf buf = st.ReceivedSequenceCounters.getD i 0) = true
  · have h1 : processIncomingUMP st buf = (st, []) := by
      unfold processIncomingUMP
      rw [if_pos h]
    rw [h1]
    exact h
  · have h1 : (processIncomingUMP st buf).1.ReceivedSequenceCounters =
        (List.range NUM_FEC_ENTRIES).map fun i =>
          if i < NUM_FEC_ENTRIES - 1 then st.ReceivedSequenceCounters.getD (i + 1) 0
          else packetNumberOfBuf buf := by
      unfold processIncomingUMP
      rw [if_neg h]
    rw [h1]
    norm_num [NUM_FEC_ENTRIES, show List.range 5 = [0, 1, 2, 3, 4] from rfl, List.getD]

lemma processIncomingUMP_idem (st : HandlerState) (buf : List Nat) :
    processIncomingUMP (processIncomingUMP st buf).1 buf =
      ((processIncomingUMP st buf).1, []) := by
  have hc := window_check_after st buf
  set st1 := (processIncomingUMP st buf).1 with hst1
  unfold processIncomingUMP
  rw [if_pos hc]

lemma processTimes_stable (st : HandlerState) (buf : List Nat) : ∀ n : Nat,
    processTimes st buf (n + 1) =
      ((processIncomingUMP st buf).1, (processIncomingUMP st buf).2) := by
  intro n
  induction n with
  | zero => simp [processTimes]
  | succ n ih =>
    show (let r := processTimes st buf (n + 1);
          let r2 := processIncomingUMP r.1 buf; (r2.1, r.2 ++ r2.2)) = _
    rw [ih]
    dsimp only
    rw [processIncomingUMP_idem]
    simp

lemma getD_append_right (p q : List Nat) (i d : Nat) :
    (p ++ q).getD (p.length + i) d = q.getD i d := by
  induction p with
  | nil => simp
  | cons x p ih =>
    show (x :: (p ++ q)).getD (p.length + 1 + i) d = q.getD i d
    have he : p.length + 1 + i = (p.length + i) + 1 := by omega
    rw [he]
    simpa using ih

lemma getD_append_left (p q : List Nat) (i d : Nat) (h : i < p.length) :
    (p ++ q).getD i d = p.getD i d := by
  induction p generalizing i with
  | nil => simp at h
  | cons x p ih =>
    cases i with
    | zero => rfl
    | succ i =>
      show (x :: (p ++ q)).getD (i + 1) d = (x :: p).getD (i + 1) d
      simp only [List.getD_cons_succ]
      exact ih i (by simpa using h)

lemma wordBytes_length (w : Nat) : (wordBytes w).length = 4 := rfl

lemma encodeWords_cons (w : Nat) (ws : List Nat) :
    encodeWords (w :: ws) = wordBytes w ++ encodeWords ws := by
  simp [encodeWords]

lemma encodeWords_append (x y : List Nat) :
    encodeWords (x ++ y) = encodeWords x ++ encodeWords y := by
  simp [encodeWords]

lemma encodeWords_length (ws : List Nat) : (encodeWords ws).length = 4 * ws.length := by
  induction ws with
  | nil => rfl
  | cons w ws ih =>
    simp only [encodeWords_cons, List.length_append, wordBytes_length, ih,
      List.length_cons]
    omega

lemma readWord_encode (B : List Nat) (w : Nat) (R : List Nat) (hw : w < 2 ^ 32) :
    readWord (B ++ (wordBytes w ++ R)) B.length = w := by
  unfold readWord
  have e0 := getD_append_right B (wordBytes w ++ R) 0 0
  have e1 := getD_append_right B (wordBytes w ++ R) 1 0
  have e2 := getD_append_right B (wordBytes w ++ R) 2 0
  have e3 := getD_append_right B (wordBytes w ++ R) 3 0
  rw [Nat.add_zero] at e0
  rw [e0, e1, e2, e3]
  simp only [wordBytes, List.cons_append, List.getD_cons_succ, List.getD_cons_zero]
  omega

lemma readWord_encode_at (ws : List Nat) : ∀ (B : List Nat) (k : Nat), k < ws.length →
    (∀ w ∈ ws, w < 2 ^ 32) →
    readWord (B ++ encodeWords ws) (B.length + 4 * k) = ws.getD k 0 := by
  induction ws with
  | nil =>
    intro B k hk
    simp at hk
  | cons w ws ih =>
    intro B k hk hw
    cases k with
    | zero =>
      rw [Nat.mul_zero, Nat.add_zero, encodeWords_cons]
      exact readWord_encode B w (encodeWords ws) (hw w (List.mem_cons_self _ _))
    | succ k =>
      have hb : B.length + 4 * (k + 1) = (B ++ wordBytes w).length + 4 * k := by
        simp [wordBytes_length]
        omega
      have hbuf : B ++ encodeWords (w :: ws) = (B ++ wordBytes w) ++ encodeWords ws := by
        rw [encodeWords_cons, List.append_assoc]
      rw [hb, hbuf]
      exact ih (B ++ wordBytes w) k (by simpa using hk) fun x hx => hw x (List.mem_cons_of_mem _ hx)

lemma parseLoop_encode (msgs : List (List Nat)) : ∀ (B : List Nat) (pl wc fuel : Nat),
    (∀ m ∈ msgs, WellFormedMsg m) →
    pl = wc + msgs.flatten.length →
    msgs.flatten.length ≤ fuel →
    parseLoop (B ++ encodeWords msgs.flatten) pl fuel wc B.length = msgs := by
  induction msgs with
  | nil =>
    intro B pl wc fuel _ hpl _
    simp only [List.flatten_nil, List.length_nil, Nat.add_zero] at hpl
    cases fuel with
    | zero => rfl
    | succ f =>
      unfold parseLoop
      rw [if_neg (by omega)]
  | cons m rest ih =>
    intro B pl wc fuel hwf hpl hfuel
    obtain ⟨hmlen, hmw⟩ := hwf m (List.mem_cons_self _ _)
    have hwords : ∀ w ∈ (m :: rest).flatten, w < 2 ^ 32 := by
      intro w hw
      simp only [List.flatten_cons, List.mem_append] at hw
      rcases hw with h | h
      · exact hmw w h
      · obtain ⟨m', hm', hwm'⟩ := List.mem_flatten.mp h
        exact (hwf m' (List.mem_cons_of_mem _ hm')).2 w hwm'
    have hread : ∀ k, k < m.length →
        readWord (B ++ encodeWords (m :: rest).flatten) (B.length + 4 * k) = m.getD k 0 := by
      intro k hk
      have hflat : (m :: rest).flatten = m ++ rest.flatten := List.flatten_cons ..
      rw [hflat]
      rw [readWord_encode_at (m ++ rest.flatten) B k (by simp; omega)
        (by rw [← hflat]; exact hwords)]
      exact getD_append_left m rest.flatten k 0 hk
    simp only [List.flatten_cons, List.length_append] at hpl hfuel
    rcases umpsize_cases (m.headD 0) with hs | hs | hs | hs
    · -- one-word message
      obtain ⟨a, rfl⟩ := list_len1 m (hmlen.trans hs)
      simp only [List.headD_cons] at hs
      have h0 := hread 0 (by norm_num)
      simp only [Nat.mul_zero, Nat.add_zero, List.getD_cons_zero] at h0
      simp only [List.length_cons, List.length_nil] at hpl hfuel
      cases fuel with
      | zero => omega
      | succ f =>
        unfold parseLoop
        rw [if_pos (by omega)]
        dsimp only
        rw [if_pos (by rw [h0]; exact hs)]
        congr 1
        · rw [h0]
        · rw [show B ++ encodeWords ([a] :: rest).flatten =
              (B ++ encodeWords [a]) ++ encodeWords rest.flatten from by
            simp [encodeWords]]
          rw [show B.length + 4 = (B ++ encodeWords [a]).length from by
            simp [encodeWords_length]]
          exact ih (B ++ encodeWords [a]) pl (wc + 1) f
            (fun m' hm' => hwf m' (List.mem_cons_of_mem _ hm'))
            (by omega) (by omega)
    · -- two-word message
      obtain ⟨a, b, rfl⟩ := list_len2 m (hmlen.trans hs)
      simp only [List.headD_cons] at hs
      have h0 := hread 0 (by norm_num)
      simp only [Nat.mul_zero, Nat.add_zero, List.getD_cons_zero] at h0
      have h1 := hread 1 (by norm_num)
      simp only [show (4 : Nat) * 1 = 4 from rfl, List.getD_cons_succ,
        List.getD_cons_zero] at h1
      simp only [List.length_cons, List.length_nil] at hpl hfuel
      cases fuel with
      | zero => omega
      | succ f =>
        unfold parseLoop
        rw [if_pos (by omega)]
        dsimp only
        rw [if_neg (fun hx => by rw [h0] at hx; omega)]
        rw [if_pos (by rw [h0]; exact hs)]
        congr 1
        · rw [h0, h1]
        · rw [show B ++ encodeWords ([a, b] :: rest).flatten =
              (B ++ encodeWords [a, b]) ++ encodeWords rest.flatten from by
            simp [encodeWords]]
          rw [show B.length + 8 = (B ++ encodeWords [a, b]).length from by
            simp [encodeWords_length]]
          exact ih (B ++ encodeWords [a, b]) pl (wc + 2) f
            (fun m' hm' => hwf m' (List.mem_cons_of_mem _ hm'))
            (by omega) (by omega)
    · -- three-word message
      obtain ⟨a, b, c, rfl⟩ := list_len3 m (hmlen.trans hs)
      simp only [List.headD_cons] at hs
      have h0 := hread 0 (by norm_num)
      simp only [Nat.mul_zero, Nat.add_zero, List.getD_cons_zero] at h0
      have h1 := hread 1 (by norm_num)
      simp only [show (4 : Nat) * 1 = 4 from rfl, List.getD_cons_succ,
        List.getD_cons_zero] at h1
      have h2 := hread 2 (by norm_num)
      simp only [show (4 : Nat) * 2 = 8 from rfl, List.getD_cons_succ,
        List.getD_cons_zero] at h2
      simp only [List.length_cons, List.length_nil] at hpl hfuel
      cases fuel with
      | zero => omega
      | succ f =>
        unfold parseLoop
        rw [if_pos (by omega)]
        dsimp only
        rw [if_neg (fun hx => by rw [h0] at hx; omega)]
        rw [if_neg (fun hx => by rw [h0] at hx; omega)]
        rw [if_pos (by rw [h0]; exact hs)]
        congr 1
        · rw [h0, h1, h2]
        · rw [show B ++ encodeWords ([a, b, c] :: rest).flatten =
              (B ++ encodeWords [a, b, c]) ++ encodeWords rest.flatten from by
            simp [encodeWords]]
          rw [show B.length + 12 = (B ++ encodeWords [a, b, c]).length from by
            simp [encodeWords_length]]
          exact ih (B ++ encodeWords [a, b, c]) pl (wc + 3) f
            (fun m' hm' => hwf m' (List.mem_cons_of_mem _ hm'))
            (by omega) (by omega)
    · -- four-word message
      obtain ⟨a, b, c, d, rfl⟩ := list_len4 m (hmlen.trans hs)
      simp only [List.headD_cons] at hs
      have h0 := hread 0 (by norm_num)
      simp only [Nat.mul_zero, Nat.add_zero, List.getD_cons_zero] at h0
      have h1 := hread 1 (by norm_num)
      simp only [show (4 : Nat) * 1 = 4 from rfl, List.getD_cons_succ,
        List.getD_cons_zero] at h1
      have h2 := hread 2 (by norm_num)
      simp only [show (4 : Nat) * 2 = 8 from rfl, List.getD_cons_succ,
        List.getD_cons_zero] at h2
      have h3 := hread 3 (by norm_num)
      simp only [show (4 : Nat) * 3 = 12 from rfl, List.getD_cons_succ,
        List.getD_cons_zero] at h3
      simp only [List.length_cons, List.length_nil] at hpl hfuel
      cases fuel with
      | zero => omega
      | succ f =>
        unfold parseLoop
        rw [if_pos (by omega)]
        dsimp only
        rw [if_neg (fun hx => by rw [h0] at hx; omega)]
        rw [if_neg (fun hx => by rw [h0] at hx; omega)]
        rw [if_neg (fun hx => by rw [h0] at hx; omega)]
        congr 1
        · rw [h0, h1, h2, h3]
        · rw [show B ++ encodeWords ([a, b, c, d] :: rest).flatten =
              (B ++ encodeWords [a, b, c, d]) ++ encodeWords rest.flatten from by
            simp [encodeWords]]
          rw [show B.length + 16 = (B ++ encodeWords [a, b, c, d]).length from by
            simp [encodeWords_length]]
          exact ih (B ++ encodeWords [a, b, c, d]) pl (wc + 4) f
            (fun m' hm' => hwf m' (List.mem_cons_of_mem _ hm'))
            (by omega) (by omega)

lemma packetNumberOf_umpDataPacket (seqn : Nat) (msgs : List (List Nat)) :
    packetNumberOfBuf (umpDataPacket seqn msgs) = seqn % 2 ^ 16 := by
  unfold packetNumberOfBuf umpDataPacket
  norm_num [List.getD_cons_succ, List.getD_cons_zero]
  omega

end DedupProof

/-- C3: receive-side deduplication of ProcessIncomingUMP.  A UMP-data packet
whose 16-bit packet number matches one of the five dedup window entries
(initialised to five 0xFFFF entries by the FEC reset) produces no callback
deliveries and leaves the handler state — in particular the window —
unchanged.  A packet with a fresh number shifts the window left by one and
appends the new number at the tail, and delivers each complete UMP message
of its payload to the callback exactly once, in order: for a wire-complete
packet carrying well-formed messages the delivery list is exactly the
message list.  Consequently feeding the same packet n ≥ 1 times in a row
produces exactly the deliveries of the first feed. -/
theorem dedup_window_spec (st : HandlerState) (buf : List Nat) (seqn : Nat)
    (msgs : List (List Nat))
    (hlen : st.ReceivedSequenceCounters.length = 5) :
    (packetNumberOfBuf buf ∈ st.ReceivedSequenceCounters →
      processIncomingUMP st buf = (st, [])) ∧
    (packetNumberOfBuf buf ∉ st.ReceivedSequenceCounters →
      (processIncomingUMP st buf).1.ReceivedSequenceCounters =
        st.ReceivedSequenceCounters.tail ++ [packetNumberOfBuf buf]) ∧
    ((∀ m ∈ msgs, WellFormedMsg m) → seqn % 2 ^ 16 ∉ st.ReceivedSequenceCounters →
      (processIncomingUMP st (umpDataPacket seqn msgs)).2 = msgs) ∧
    (∀ n : Nat, (processTimes st buf (n + 1)).2 = (processIncomingUMP st buf).2) ∧
    (resetFECMemory st).ReceivedSequenceCounters = List.replicate 5 0xFFFF := by
  refine ⟨processIncomingUMP_dup st buf hlen,
    fun hmem => (processIncomingUMP_fresh_window st buf hlen hmem).1, ?_, ?_, rfl⟩
  · intro hwf hfresh
    have hfresh' : packetNumberOfBuf (umpDataPacket seqn msgs) ∉
        st.ReceivedSequenceCounters := by
      rw [packetNumberOf_umpDataPacket]
      exact hfresh
    rw [(processIncomingUMP_fresh_window st _ hlen hfresh').2]
    have hB : ([0xFF, msgs.flatten.length, seqn / 2 ^ 8 % 256, seqn % 256] : List Nat)
        ++ encodeWords msgs.flatten = umpDataPacket seqn msgs := rfl
    have hkey := parseLoop_encode msgs
      [0xFF, msgs.flatten.length, seqn / 2 ^ 8 % 256, seqn % 256]
      msgs.flatten.length 0 msgs.flatten.length hwf (by omega) (le_refl _)
    rw [hB] at hkey
    have hgd : (umpDataPacket seqn msgs).getD 1 0 = msgs.flatten.length := rfl
    rw [hgd]
    exact hkey
  · intro n
    rw [processTimes_stable st buf n]

/-- Witness for `dedup_window_spec`: the freshly opened listener delivers a
single one-word MT-2 message exactly once, and feeding the same packet three
times delivers nothing further. -/
theorem dedup_window_spec_witness :
    (processIncomingUMP openedState (umpDataPacket 7 [[0x20914040]])).2 = [[0x20914040]] ∧
    (processTimes openedState (umpDataPacket 7 [[0x20914040]]) 3).2 =
      (processIncomingUMP openedState (umpDataPacket 7 [[0x20914040]])).2 :=
  ⟨(dedup_window_spec openedState (umpDataPacket 7 [[0x20914040]]) 7 [[0x20914040]]
      (by decide)).2.2.1 (by decide) (by decide),
   (dedup_window_spec openedState (umpDataPacket 7 [[0x20914040]]) 7 [[0x20914040]]
      (by decide)).2.2.2.1 2⟩

end NetUMP
